import Mathlib

/-!
# Verification of the p2psc rendezvous mediator

A shallow embedding of `FakeMediator` (src/integration/src/util/fake_mediator.cpp):
the per-connection handshake state machine `_handle_connection`, the disconnect
barrier (`_add_to_disconnects` / `_wait_for_disconnect`), and the keyed identifier
store it synchronises through.  Concurrency is modelled as a small-step
interleaving semantics: each connection handler is a session with an explicit
program counter (`Phase`), and a scheduler action advances one session through
one atomic block of the handler (the blocks are delimited by the handler's
accesses to the shared store and barrier).  Every message send/receive and every
shared-state operation is recorded in a global event trace.
-/

/-- An address descriptor, mirroring `p2psc::socket::SocketAddress` (ip and port). -/
structure SocketAddress where
  ip : String
  port : Nat
deriving DecidableEq, Repr

/-- A registered peer's address and protocol version, mirroring `PeerIdentifier`
as constructed in `_handle_connection`: `PeerIdentifier(socket_address, version)`. -/
structure PeerIdentifier where
  socket_address : SocketAddress
  version : Nat
deriving DecidableEq, Repr

/-- Payload of the `Advertise` message: `version`, `our_key`, `their_key`
(`advertise.format().payload` in the handler). -/
structure Advertise where
  version : Nat
  our_key : String
  their_key : String
deriving DecidableEq, Repr

/-- Abstract ciphertext: the result of `crypto::RSA::public_encrypt(plaintext)` on
the key parsed from `our_key`.  The crypto collaborator is out of scope (spec sec 1),
so a ciphertext is represented by the exact plaintext and key that were passed to
`public_encrypt`; no further structure is assumed. -/
structure Ciphertext where
  plaintext : String
  key : String
deriving DecidableEq, Repr

/-- The abstract encryption collaborator: `RSA::from_public_key(key)` followed by
`public_encrypt(plaintext)`. -/
def public_encrypt (key : String) (plaintext : String) : Ciphertext :=
  { plaintext := plaintext, key := key }

/-- The message-type discriminant, mirroring `message::MessageType`. -/
inductive MessageType
  | advertise
  | advertiseAbort
  | advertiseChallenge
  | advertiseResponse
  | peerIdentification
  | peerDisconnect
deriving DecidableEq, Repr

/-- The six wire messages of the protocol (spec sec 3 table). -/
inductive Message
  | advertise (a : Advertise)
  | advertiseAbort (reason : String)
  | advertiseChallenge (encrypted_nonce : Ciphertext)
  | advertiseResponse (payload : String)
  | peerIdentification (version : Nat) (ip : String) (port : Nat)
  | peerDisconnect (port : Nat)
deriving DecidableEq, Repr

/-- One observable action of a connection handler: a message received on or sent
to its own socket, an identifier-store operation, or a disconnect-barrier
operation.  `sid` is the session (connection handler) performing the action. -/
inductive Event
  | recv (sid : Nat) (m : Message)
  | send (sid : Nat) (m : Message)
  | storePut (sid : Nat) (key : String) (r : PeerIdentifier)
  | storeGet (sid : Nat) (key : String) (res : Option PeerIdentifier)
  | markComplete (sid : Nat) (a : SocketAddress)
  | consumeComplete (sid : Nat) (a : SocketAddress)
deriving DecidableEq, Repr

/-- The session that performed an event. -/
def Event.sid : Event → Nat
  | .recv j _ => j
  | .send j _ => j
  | .storePut j _ _ => j
  | .storeGet j _ _ => j
  | .markComplete j _ => j
  | .consumeComplete j _ => j

/-- The keyed identifier store maps public-key identifiers to peer records.
Spec sec 3 allows treating it as append-only for the lifetime of one matching, so
it is a list of bindings with the most recent binding first. -/
abbrev Store := List (String × PeerIdentifier)

/-- Modelled from the spec: the `KeyToIdentifierStore` implementation is not under
src/ (only its call sites in `_handle_connection` are).  Spec sec 4.1:
`get(key) -> record | absent` is a non-blocking lookup. -/
def KeyToIdentifierStore.get : Store → String → Option PeerIdentifier
  | [], _ => none
  | (k, r) :: rest, key => if key = k then some r else KeyToIdentifierStore.get rest key

/-- Modelled from the spec: `put(key, record)` inserts/overwrites the mapping
key -> record (spec sec 4.1); with the append-only representation of sec 3, the new
binding shadows any older one. -/
def KeyToIdentifierStore.put (store : Store) (key : String) (r : PeerIdentifier) : Store :=
  (key, r) :: store

/-- The barrier's completed set `_completed_disconnects` (a `std::set`, hence
duplicate-free) as a list of addresses. -/
abbrev Completed := List SocketAddress

/-- `FakeMediator::_add_to_disconnects`: insert the address into
`_completed_disconnects` (set insert: a no-op when already present) and notify
all waiters. -/
def add_to_disconnects (completed : Completed) (a : SocketAddress) : Completed :=
  if a ∈ completed then completed else a :: completed

/-- The erase performed at the end of `FakeMediator::_wait_for_disconnect`:
`_completed_disconnects.erase(address)`.  A `std::set` holds at most one copy of
the address, so erasing it removes every occurrence. -/
def erase_disconnect (completed : Completed) (a : SocketAddress) : Completed :=
  completed.filter (fun x => decide (x ≠ a))

/-- Program counter of one connection handler, naming the next atomic block of
`_handle_connection` to run.  Blocks are split at the shared-state operations
(store get, store put, await wake, barrier wait, barrier signal). -/
inductive Phase
  /-- About to receive `Advertise` (top of `_handle_connection`). -/
  | start
  /-- `AdvertiseChallenge` sent; about to receive `AdvertiseResponse`. -/
  | sentChallenge
  /-- Response received; about to call `_key_to_identifier_store.get(their_key)`. -/
  | atRole
  /-- `get` returned absent (Initiator branch); about to `put(our_key, ...)`. -/
  | gotAbsent
  /-- Registered; blocked in `await(their_key, 2000)`. -/
  | awaiting
  /-- `await` returned `peer`; blocked in `_wait_for_disconnect(peer.socket_address)`. -/
  | waitingDisconnect (peer : PeerIdentifier)
  /-- `get` returned present (Responder branch); about to `put(our_key, ...)`. -/
  | asResponder
  /-- Responder registered; about to send `PeerDisconnect` and signal the barrier. -/
  | respReady
  /-- Handler returned: session over, its socket released. -/
  | done
deriving DecidableEq, Repr

/-- One connection handler's session: the advertisement and challenge response its
peer will send on this connection, the connection's address
(`session_socket->get_socket_address()`), and the program counter. -/
structure Session where
  advertise : Advertise
  response : String
  address : SocketAddress
  phase : Phase
deriving DecidableEq, Repr

/-- Global state: the mediator's required protocol version (`_protocol_version`),
the quit-after test hook (`_quit_after`), all sessions, the two shared stores, and
the global event trace. -/
structure Config where
  required_version : Nat
  quit_after : Option MessageType
  sessions : List Session
  store : Store
  completed : Completed
  trace : List Event
deriving DecidableEq, Repr

/-- The abort reason built in the version check:
`"Required protocol version: " + std::to_string(_protocol_version)`. -/
def abortReason (rv : Nat) : String :=
  "Required protocol version: " ++ toString rv

/-- The nonce chosen in `_handle_connection`: `const auto nonce = 1337`. -/
def nonce : Nat := 1337

/-- Result of running one atomic block of a handler: the new program counter, the
events performed (in order), and the updated shared stores. -/
structure Outcome where
  phase : Phase
  events : List Event
  store : Store
  completed : Completed
deriving DecidableEq, Repr

/-- One atomic block of `_handle_connection` for session `i` in state `s`, given
the mediator configuration and shared state.  `none` means the session is blocked
(or already finished) and cannot move.  Each branch mirrors the corresponding
section of the C++ handler, including the `QUIT_IF_REQUESTED` checks. -/
def sessionStep (rv : Nat) (qa : Option MessageType) (store : Store)
    (completed : Completed) (i : Nat) (s : Session) : Option Outcome :=
  match s.phase with
  | .start =>
    -- receive Advertise; QUIT_IF_REQUESTED(Advertise); version check;
    -- send AdvertiseChallenge; QUIT_IF_REQUESTED(AdvertiseChallenge)
    let recvEvt := Event.recv i (Message.advertise s.advertise)
    if qa = some MessageType.advertise then
      some ⟨.done, [recvEvt], store, completed⟩
    else if s.advertise.version < rv then
      -- send AdvertiseAbort then return (QUIT_IF_REQUESTED(AdvertiseAbort) also returns)
      some ⟨.done, [recvEvt, Event.send i (Message.advertiseAbort (abortReason rv))],
        store, completed⟩
    else
      let challenge :=
        Message.advertiseChallenge (public_encrypt s.advertise.our_key (toString nonce))
      if qa = some MessageType.advertiseChallenge then
        some ⟨.done, [recvEvt, Event.send i challenge], store, completed⟩
      else
        some ⟨.sentChallenge, [recvEvt, Event.send i challenge], store, completed⟩
  | .sentChallenge =>
    -- receive AdvertiseResponse; QUIT_IF_REQUESTED(AdvertiseResponse)
    let recvEvt := Event.recv i (Message.advertiseResponse s.response)
    if qa = some MessageType.advertiseResponse then
      some ⟨.done, [recvEvt], store, completed⟩
    else
      some ⟨.atRole, [recvEvt], store, completed⟩
  | .atRole =>
    -- maybe_peer = _key_to_identifier_store.get(their_key)
    match KeyToIdentifierStore.get store s.advertise.their_key with
    | none => some ⟨.gotAbsent, [Event.storeGet i s.advertise.their_key none],
        store, completed⟩
    | some p => some ⟨.asResponder, [Event.storeGet i s.advertise.their_key (some p)],
        store, completed⟩
  | .gotAbsent =>
    -- Initiator branch: put(our_key, PeerIdentifier(address, version)), then await
    let r : PeerIdentifier := ⟨s.address, s.advertise.version⟩
    some ⟨.awaiting, [Event.storePut i s.advertise.our_key r],
      KeyToIdentifierStore.put store s.advertise.our_key r, completed⟩
  | .awaiting =>
    -- Modelled from the spec: `await(key, timeout)` (KeyToIdentifierStore source is
    -- not under src/) blocks until put is observed for the key, returning the record
    -- present at wake time (spec sec 4.1).  Success wake: the key is present.
    match KeyToIdentifierStore.get store s.advertise.their_key with
    | some p => some ⟨.waitingDisconnect p, [], store, completed⟩
    | none => none
  | .waitingDisconnect p =>
    -- _wait_for_disconnect(awaited_peer->socket_address): wait until the address is
    -- in _completed_disconnects, erase it, then send PeerIdentification;
    -- QUIT_IF_REQUESTED(PeerIdentification) and the subsequent return both end the
    -- handler.
    if p.socket_address ∈ completed then
      some ⟨.done,
        [Event.consumeComplete i p.socket_address,
         Event.send i (Message.peerIdentification p.version p.socket_address.ip
           p.socket_address.port)],
        store, erase_disconnect completed p.socket_address⟩
    else none
  | .asResponder =>
    -- Responder branch: put(our_key, PeerIdentifier(address, version))
    let r : PeerIdentifier := ⟨s.address, s.advertise.version⟩
    some ⟨.respReady, [Event.storePut i s.advertise.our_key r],
      KeyToIdentifierStore.put store s.advertise.our_key r, completed⟩
  | .respReady =>
    -- send PeerDisconnect{port}; _add_to_disconnects(address);
    -- QUIT_IF_REQUESTED(PeerDisconnect) and the fall-through both end the handler.
    some ⟨.done,
      [Event.send i (Message.peerDisconnect s.address.port),
       Event.markComplete i s.address],
      store, add_to_disconnects completed s.address⟩
  | .done => none

/-- Modelled from the spec: the timeout arm of `await(their_key, 2000)` (spec
sec 4.1): after the timeout elapses, if the key is still absent the handler logs
and returns without sending anything.  The wake-time re-check means a timeout
outcome is only possible while the key is absent. -/
def sessionTimeout (store : Store) (s : Session) : Option Phase :=
  match s.phase with
  | .awaiting =>
    match KeyToIdentifierStore.get store s.advertise.their_key with
    | none => some Phase.done
    | some _ => none
  | _ => none

/-- A scheduler action: run the next atomic block of session `i`, or fire session
`i`'s await timeout. -/
inductive Act
  | step (i : Nat)
  | timeout (i : Nat)
deriving DecidableEq, Repr

/-- Execute one scheduler action on a configuration.  `none` means the action is
not enabled (no such session, the session is blocked, or the session is done). -/
def exec : Act → Config → Option Config
  | .step i, c =>
    match c.sessions[i]? with
    | none => none
    | some s =>
      match sessionStep c.required_version c.quit_after c.store c.completed i s with
      | none => none
      | some o =>
        some { c with
          sessions := c.sessions.set i { s with phase := o.phase },
          store := o.store,
          completed := o.completed,
          trace := c.trace ++ o.events }
  | .timeout i, c =>
    match c.sessions[i]? with
    | none => none
    | some s =>
      match sessionTimeout c.store s with
      | none => none
      | some ph =>
        some { c with sessions := c.sessions.set i { s with phase := ph } }

/-- One interleaving step: some enabled action fires. -/
def Step (c c' : Config) : Prop := ∃ a, exec a c = some c'

/-- Reachability under arbitrary interleaving of the handlers. -/
def Reach : Config → Config → Prop := Relation.ReflTransGen Step

/-- Run an explicit schedule of actions; `none` if some action is not enabled. -/
def run : Config → List Act → Option Config
  | c, [] => some c
  | c, a :: rest =>
    match exec a c with
    | none => none
    | some c' => run c' rest

/-- The messages sent to session `i`'s peer, in order, extracted from a trace. -/
def sentTo (i : Nat) (tr : List Event) : List Message :=
  tr.filterMap (fun e =>
    match e with
    | .send j m => if j = i then some m else none
    | _ => none)

/-! ## Basic structural lemmas -/

theorem getElem?_set_of_some {α : Type} {l : List α} {i : Nat} {s : α} (a : α)
    (h : l[i]? = some s) : (l.set i a)[i]? = some a := by
  rw [List.getElem?_set_self']
  rw [h]
  rfl

/-- Splitting an occurrence of `x` in `l ++ new`: either it lies inside `l`, or
the prefix `pre` covers all of `l` and the occurrence lies inside `new`. -/
theorem append_split {α : Type} (l new pre post : List α) (x : α)
    (h : l ++ new = pre ++ x :: post) :
    (∃ post', l = pre ++ x :: post') ∨
      (∃ pre', pre = l ++ pre' ∧ new = pre' ++ x :: post) := by
  induction l generalizing pre with
  | nil =>
    right
    exact ⟨pre, rfl, h⟩
  | cons a l ih =>
    cases pre with
    | nil =>
      simp only [List.nil_append, List.cons_append] at h
      obtain ⟨rfl, h2⟩ := List.cons.inj h
      left
      exact ⟨l, by simp [h2]⟩
    | cons b pre' =>
      simp only [List.cons_append] at h
      obtain ⟨rfl, h2⟩ := List.cons.inj h
      rcases ih pre' h2 with ⟨post', hp⟩ | ⟨pre'', hp1, hp2⟩
      · left
        exact ⟨post', by simp [hp]⟩
      · right
        exact ⟨pre'', by simp [hp1], hp2⟩

/-- Inversion of a successful handler step. -/
theorem exec_step_inv {i : Nat} {c c' : Config} (h : exec (Act.step i) c = some c') :
    ∃ s o, c.sessions[i]? = some s ∧
      sessionStep c.required_version c.quit_after c.store c.completed i s = some o ∧
      c' = { c with
        sessions := c.sessions.set i { s with phase := o.phase },
        store := o.store,
        completed := o.completed,
        trace := c.trace ++ o.events } := by
  simp only [exec] at h
  split at h
  · cases h
  · rename_i s hs
    split at h
    · cases h
    · rename_i o ho
      exact ⟨s, o, hs, ho, (Option.some.inj h).symm⟩

/-- Inversion of a successful timeout action. -/
theorem exec_timeout_inv {i : Nat} {c c' : Config} (h : exec (Act.timeout i) c = some c') :
    ∃ s ph, c.sessions[i]? = some s ∧ sessionTimeout c.store s = some ph ∧
      c' = { c with sessions := c.sessions.set i { s with phase := ph } } := by
  simp only [exec] at h
  split at h
  · cases h
  · rename_i s hs
    split at h
    · cases h
    · rename_i ph hph
      exact ⟨s, ph, hs, hph, (Option.some.inj h).symm⟩

/-- Inversion of a successful timeout: it fires only from `awaiting`, only while
the awaited key is absent, and it moves the session to `done`. -/
theorem sessionTimeout_inv {store : Store} {s : Session} {ph : Phase}
    (h : sessionTimeout store s = some ph) :
    s.phase = Phase.awaiting ∧
      KeyToIdentifierStore.get store s.advertise.their_key = none ∧ ph = Phase.done := by
  unfold sessionTimeout at h
  split at h
  · rename_i hp
    split at h
    · rename_i hg
      exact ⟨hp, hg, (Option.some.inj h).symm⟩
    · cases h
  · cases h

/-- Exhaustive case analysis of a successful handler step: each disjunct is one
branch of `_handle_connection`. -/
theorem sessionStep_cases {rv : Nat} {qa : Option MessageType} {store : Store}
    {completed : Completed} {i : Nat} {s : Session} {o : Outcome}
    (h : sessionStep rv qa store completed i s = some o) :
    (s.phase = Phase.start ∧ qa = some MessageType.advertise ∧
      o = ⟨Phase.done, [Event.recv i (Message.advertise s.advertise)], store, completed⟩) ∨
    (s.phase = Phase.start ∧ qa ≠ some MessageType.advertise ∧ s.advertise.version < rv ∧
      o = ⟨Phase.done,
        [Event.recv i (Message.advertise s.advertise),
         Event.send i (Message.advertiseAbort (abortReason rv))], store, completed⟩) ∨
    (s.phase = Phase.start ∧ qa ≠ some MessageType.advertise ∧ ¬ s.advertise.version < rv ∧
      qa = some MessageType.advertiseChallenge ∧
      o = ⟨Phase.done,
        [Event.recv i (Message.advertise s.advertise),
         Event.send i (Message.advertiseChallenge
           (public_encrypt s.advertise.our_key (toString nonce)))], store, completed⟩) ∨
    (s.phase = Phase.start ∧ qa ≠ some MessageType.advertise ∧ ¬ s.advertise.version < rv ∧
      qa ≠ some MessageType.advertiseChallenge ∧
      o = ⟨Phase.sentChallenge,
        [Event.recv i (Message.advertise s.advertise),
         Event.send i (Message.advertiseChallenge
           (public_encrypt s.advertise.our_key (toString nonce)))], store, completed⟩) ∨
    (s.phase = Phase.sentChallenge ∧ qa = some MessageType.advertiseResponse ∧
      o = ⟨Phase.done, [Event.recv i (Message.advertiseResponse s.response)],
        store, completed⟩) ∨
    (s.phase = Phase.sentChallenge ∧ qa ≠ some MessageType.advertiseResponse ∧
      o = ⟨Phase.atRole, [Event.recv i (Message.advertiseResponse s.response)],
        store, completed⟩) ∨
    (s.phase = Phase.atRole ∧
      KeyToIdentifierStore.get store s.advertise.their_key = none ∧
      o = ⟨Phase.gotAbsent, [Event.storeGet i s.advertise.their_key none],
        store, completed⟩) ∨
    (∃ p, s.phase = Phase.atRole ∧
      KeyToIdentifierStore.get store s.advertise.their_key = some p ∧
      o = ⟨Phase.asResponder, [Event.storeGet i s.advertise.their_key (some p)],
        store, completed⟩) ∨
    (s.phase = Phase.gotAbsent ∧
      o = ⟨Phase.awaiting,
        [Event.storePut i s.advertise.our_key ⟨s.address, s.advertise.version⟩],
        KeyToIdentifierStore.put store s.advertise.our_key ⟨s.address, s.advertise.version⟩,
        completed⟩) ∨
    (∃ p, s.phase = Phase.awaiting ∧
      KeyToIdentifierStore.get store s.advertise.their_key = some p ∧
      o = ⟨Phase.waitingDisconnect p, [], store, completed⟩) ∨
    (∃ p, s.phase = Phase.waitingDisconnect p ∧ p.socket_address ∈ completed ∧
      o = ⟨Phase.done,
        [Event.consumeComplete i p.socket_address,
         Event.send i (Message.peerIdentification p.version p.socket_address.ip
           p.socket_address.port)],
        store, erase_disconnect completed p.socket_address⟩) ∨
    (s.phase = Phase.asResponder ∧
      o = ⟨Phase.respReady,
        [Event.storePut i s.advertise.our_key ⟨s.address, s.advertise.version⟩],
        KeyToIdentifierStore.put store s.advertise.our_key ⟨s.address, s.advertise.version⟩,
        completed⟩) ∨
    (s.phase = Phase.respReady ∧
      o = ⟨Phase.done,
        [Event.send i (Message.peerDisconnect s.address.port),
         Event.markComplete i s.address],
        store, add_to_disconnects completed s.address⟩) := by
  cases hp : s.phase <;> simp only [sessionStep, hp] at h
  case start =>
    split_ifs at h with h1 h2 h3
    · exact Or.inl ⟨rfl, h1, (Option.some.inj h).symm⟩
    · exact Or.inr (Or.inl ⟨rfl, h1, h2, (Option.some.inj h).symm⟩)
    · exact Or.inr (Or.inr (Or.inl ⟨rfl, h1, h2, h3, (Option.some.inj h).symm⟩))
    · exact Or.inr (Or.inr (Or.inr (Or.inl ⟨rfl, h1, h2, h3, (Option.some.inj h).symm⟩)))
  case sentChallenge =>
    split_ifs at h with h1
    · exact Or.inr (Or.inr (Or.inr (Or.inr (Or.inl ⟨rfl, h1, (Option.some.inj h).symm⟩))))
    · exact Or.inr (Or.inr (Or.inr (Or.inr (Or.inr (Or.inl ⟨rfl, h1,
        (Option.some.inj h).symm⟩)))))
  case atRole =>
    split at h
    · rename_i hg
      exact Or.inr (Or.inr (Or.inr (Or.inr (Or.inr (Or.inr (Or.inl ⟨rfl, hg,
        (Option.some.inj h).symm⟩))))))
    · rename_i p hg
      exact Or.inr (Or.inr (Or.inr (Or.inr (Or.inr (Or.inr (Or.inr (Or.inl ⟨p, rfl, hg,
        (Option.some.inj h).symm⟩)))))))
  case gotAbsent =>
    exact Or.inr (Or.inr (Or.inr (Or.inr (Or.inr (Or.inr (Or.inr (Or.inr (Or.inl ⟨rfl,
      (Option.some.inj h).symm⟩))))))))
  case awaiting =>
    split at h
    · rename_i p hg
      exact Or.inr (Or.inr (Or.inr (Or.inr (Or.inr (Or.inr (Or.inr (Or.inr (Or.inr
        (Or.inl ⟨p, rfl, hg, (Option.some.inj h).symm⟩)))))))))
    · cases h
  case waitingDisconnect p =>
    split_ifs at h with h1
    · exact Or.inr (Or.inr (Or.inr (Or.inr (Or.inr (Or.inr (Or.inr (Or.inr (Or.inr (Or.inr
        (Or.inl ⟨p, rfl, h1, (Option.some.inj h).symm⟩))))))))))
  case asResponder =>
    exact Or.inr (Or.inr (Or.inr (Or.inr (Or.inr (Or.inr (Or.inr (Or.inr (Or.inr (Or.inr
      (Or.inr (Or.inl ⟨rfl, (Option.some.inj h).symm⟩)))))))))))
  case respReady =>
    exact Or.inr (Or.inr (Or.inr (Or.inr (Or.inr (Or.inr (Or.inr (Or.inr (Or.inr (Or.inr
      (Or.inr (Or.inr ⟨rfl, (Option.some.inj h).symm⟩)))))))))))
  case done => cases h

/-- A schedule that runs to completion witnesses reachability. -/
theorem run_reach {c d : Config} {acts : List Act} (h : run c acts = some d) : Reach c d := by
  induction acts generalizing c with
  | nil =>
    simp only [run] at h
    rw [Option.some.inj h]
    exact Relation.ReflTransGen.refl
  | cons a rest ih =>
    simp only [run] at h
    split at h
    · cases h
    · rename_i c1 he
      exact Relation.ReflTransGen.head ⟨a, he⟩ (ih h)

/-- From a configuration with no enabled action, nothing further is reachable. -/
theorem reach_stuck {c d : Config} (hstuck : ∀ a, exec a c = none) (h : Reach c d) :
    d = c := by
  induction h with
  | refl => rfl
  | tail _ hstep ih =>
    rename_i b d' hr
    rcases hstep with ⟨a, ha⟩
    rw [ih] at ha
    rw [hstuck a] at ha
    cases ha

/-- Every event performed by a handler step is tagged with that session's id. -/
theorem sessionStep_events_sid {rv : Nat} {qa : Option MessageType} {store : Store}
    {completed : Completed} {i : Nat} {s : Session} {o : Outcome}
    (h : sessionStep rv qa store completed i s = some o) :
    ∀ e ∈ o.events, Event.sid e = i := by
  intro e he
  rcases sessionStep_cases h with
      ⟨_, _, rfl⟩ | ⟨_, _, _, rfl⟩ | ⟨_, _, _, _, rfl⟩ | ⟨_, _, _, _, rfl⟩ |
      ⟨_, _, rfl⟩ | ⟨_, _, rfl⟩ | ⟨_, _, rfl⟩ | ⟨p, _, _, rfl⟩ | ⟨_, rfl⟩ |
      ⟨p, _, _, rfl⟩ | ⟨p, _, _, rfl⟩ | ⟨_, rfl⟩ | ⟨_, rfl⟩ <;>
    simp only [List.mem_cons, List.not_mem_nil, or_false] at he <;>
    rcases he with rfl | rfl | he <;> first | rfl | cases he

/-- Executing any action preserves the number of sessions and every session's
immutable fields (its advertisement, challenge response and address). -/
theorem exec_session_fields {a : Act} {c c' : Config} (h : exec a c = some c') (j : Nat) :
    c'.sessions.length = c.sessions.length ∧
      ∀ s, c.sessions[j]? = some s → ∃ s', c'.sessions[j]? = some s' ∧
        s'.advertise = s.advertise ∧ s'.response = s.response ∧ s'.address = s.address := by
  cases a with
  | step i =>
    obtain ⟨s0, o, hs0, _, rfl⟩ := exec_step_inv h
    refine ⟨by simp [List.length_set], fun s hs => ?_⟩
    by_cases hij : i = j
    · subst hij
      rw [hs0] at hs
      rw [Option.some.inj hs] at hs0 ⊢
      exact ⟨{ s with phase := _ }, getElem?_set_of_some _ hs0, rfl, rfl, rfl⟩
    · exact ⟨s, by simpa only [List.getElem?_set_ne hij] using hs, rfl, rfl, rfl⟩
  | timeout i =>
    obtain ⟨s0, ph, hs0, _, rfl⟩ := exec_timeout_inv h
    refine ⟨by simp [List.length_set], fun s hs => ?_⟩
    by_cases hij : i = j
    · subst hij
      rw [hs0] at hs
      rw [Option.some.inj hs] at hs0 ⊢
      exact ⟨{ s with phase := ph }, getElem?_set_of_some _ hs0, rfl, rfl, rfl⟩
    · exact ⟨s, by simpa only [List.getElem?_set_ne hij] using hs, rfl, rfl, rfl⟩

theorem sentTo_append (i : Nat) (t u : List Event) :
    sentTo i (t ++ u) = sentTo i t ++ sentTo i u :=
  List.filterMap_append t u _

/-- Events of other sessions contribute nothing to `sentTo i`. -/
theorem sentTo_eq_nil (i : Nat) (evts : List Event) (h : ∀ e ∈ evts, Event.sid e ≠ i) :
    sentTo i evts = [] := by
  rw [sentTo, List.filterMap_eq_nil]
  intro e he
  cases e with
  | send j m =>
    have := h _ he
    simp only [Event.sid] at this
    simp [this]
  | recv j m => rfl
  | storePut j k r => rfl
  | storeGet j k r => rfl
  | markComplete j a => rfl
  | consumeComplete j a => rfl

/-- A session whose handler has returned stays returned, and no further message is
ever sent to its peer. -/
theorem done_frozen {c d : Config} {i : Nat} {s : Session}
    (hs : c.sessions[i]? = some s) (hph : s.phase = Phase.done) (h : Reach c d) :
    (∃ s', d.sessions[i]? = some s' ∧ s'.phase = Phase.done) ∧
      sentTo i d.trace = sentTo i c.trace := by
  induction h with
  | refl => exact ⟨⟨s, hs, hph⟩, rfl⟩
  | tail _ hstep ih =>
    obtain ⟨⟨s', hs', hph'⟩, hsent⟩ := ih
    rcases hstep with ⟨a, ha⟩
    cases a with
    | step j =>
      obtain ⟨s0, o, hs0, ho, rfl⟩ := exec_step_inv ha
      by_cases hij : j = i
      · subst hij
        rw [hs0] at hs'
        rw [← Option.some.inj hs'] at hph'
        simp only [sessionStep, hph'] at ho
        cases ho
      · refine ⟨⟨s', ?_, hph'⟩, ?_⟩
        · simpa only [List.getElem?_set_ne hij] using hs'
        · show sentTo i (_ ++ o.events) = _
          rw [sentTo_append, sentTo_eq_nil i o.events
            (fun e he => by rw [sessionStep_events_sid ho e he]; exact hij),
            List.append_nil]
          exact hsent
    | timeout j =>
      obtain ⟨s0, ph, hs0, hto, rfl⟩ := exec_timeout_inv ha
      by_cases hij : j = i
      · subst hij
        rw [hs0] at hs'
        rw [← Option.some.inj hs'] at hph'
        obtain ⟨hph0, -, -⟩ := sessionTimeout_inv hto
        rw [hph'] at hph0
        cases hph0
      · exact ⟨⟨s', by simpa only [List.getElem?_set_ne hij] using hs', hph'⟩, hsent⟩

/-- A configuration where every session is blocked or finished has no enabled
action at all. -/
theorem stuck_config {c : Config}
    (h : ∀ i s, c.sessions[i]? = some s →
      sessionStep c.required_version c.quit_after c.store c.completed i s = none ∧
      sessionTimeout c.store s = none) :
    ∀ a, exec a c = none := by
  intro a
  cases a with
  | step i =>
    simp only [exec]
    split
    · rfl
    · rename_i s hs
      rw [(h i s hs).1]
  | timeout i =>
    simp only [exec]
    split
    · rfl
    · rename_i s hs
      rw [(h i s hs).2]

/-- Indexing a two-element session list. -/
theorem two_sessions_getElem {s0 s1 : Session} {i : Nat} {s : Session}
    (h : ([s0, s1] : List Session)[i]? = some s) :
    (i = 0 ∧ s = s0) ∨ (i = 1 ∧ s = s1) := by
  match i with
  | 0 => exact Or.inl ⟨rfl, (Option.some.inj h).symm⟩
  | 1 => exact Or.inr ⟨rfl, (Option.some.inj h).symm⟩
  | n + 2 => simp at h

/-- Inserting an address into the completed set makes it a member. -/
theorem mem_add_to_disconnects (completed : Completed) (a : SocketAddress) :
    a ∈ add_to_disconnects completed a := by
  unfold add_to_disconnects
  split
  · assumption
  · exact List.mem_cons_self a completed

/-- Erasing an address removes it from the completed set. -/
theorem not_mem_erase_disconnect (completed : Completed) (a : SocketAddress) :
    a ∉ erase_disconnect completed a := by
  intro h
  rw [erase_disconnect, List.mem_filter] at h
  simp at h

/-! ## C6: wait_for blocks until the exact address is completed, then consumes it -/

/-- C6: `wait_for(address)` (the `_wait_for_disconnect` block of the handler)
returns only when a `mark_complete` for that exact address has been observed
(the session is blocked exactly while the address is not in
`_completed_disconnects`), and on return it erases that completion record, so a
subsequent `wait_for` on the same address blocks until a new `mark_complete`
for that address occurs. -/
theorem wait_for_consumes_completion {c : Config} {i : Nat} {s : Session}
    {p : PeerIdentifier} (hs : c.sessions[i]? = some s)
    (hph : s.phase = Phase.waitingDisconnect p) :
    (exec (Act.step i) c = none ↔ p.socket_address ∉ c.completed) ∧
    (∀ c', exec (Act.step i) c = some c' →
      p.socket_address ∈ c.completed ∧ p.socket_address ∉ c'.completed) := by
  by_cases hmem : p.socket_address ∈ c.completed
  · have hexec : exec (Act.step i) c = some { c with
        sessions := c.sessions.set i { s with phase := Phase.done },
        store := c.store,
        completed := erase_disconnect c.completed p.socket_address,
        trace := c.trace ++ [Event.consumeComplete i p.socket_address,
          Event.send i (Message.peerIdentification p.version p.socket_address.ip
            p.socket_address.port)] } := by
      simp only [exec, hs, sessionStep, hph, if_pos hmem]
    refine ⟨⟨fun h => ?_, fun h => absurd hmem h⟩, fun c' hc' => ?_⟩
    · rw [hexec] at h
      cases h
    · rw [hexec] at hc'
      rw [← Option.some.inj hc']
      exact ⟨hmem, not_mem_erase_disconnect c.completed p.socket_address⟩
  · have hexec : exec (Act.step i) c = none := by
      simp only [exec, hs, sessionStep, hph, if_neg hmem]
    refine ⟨⟨fun _ => hmem, fun _ => hexec⟩, fun c' hc' => ?_⟩
    rw [hexec] at hc'
    cases hc'

/-- A concrete configuration: one session blocked in `_wait_for_disconnect` on an
address already marked complete. -/
def waitCfg : Config :=
  { required_version := 1, quit_after := none,
    sessions := [{ advertise := ⟨1, "ka", "kb"⟩, response := "r",
                   address := ⟨"h1", 10⟩,
                   phase := Phase.waitingDisconnect ⟨⟨"h2", 20⟩, 1⟩ }],
    store := [("kb", ⟨⟨"h2", 20⟩, 1⟩)],
    completed := [⟨"h2", 20⟩],
    trace := [] }

/-- Witness for C6 at a concrete configuration. -/
theorem wait_for_consumes_completion_witness :
    (exec (Act.step 0) waitCfg = none ↔
      (⟨"h2", 20⟩ : SocketAddress) ∉ waitCfg.completed) ∧
    (∀ c', exec (Act.step 0) waitCfg = some c' →
      (⟨"h2", 20⟩ : SocketAddress) ∈ waitCfg.completed ∧
      (⟨"h2", 20⟩ : SocketAddress) ∉ c'.completed) :=
  @wait_for_consumes_completion waitCfg 0
    { advertise := ⟨1, "ka", "kb"⟩, response := "r", address := ⟨"h1", 10⟩,
      phase := Phase.waitingDisconnect ⟨⟨"h2", 20⟩, 1⟩ }
    ⟨⟨"h2", 20⟩, 1⟩ rfl rfl

/-! ## C7: mark_complete is idempotent, records the address, and never blocks -/

/-- C7: `mark_complete` (`_add_to_disconnects`) is idempotent — inserting the same
address twice leaves `_completed_disconnects` as after one insert — each call
records the address in the completed set, and the responder block that calls it
is always enabled (the call never blocks the handler; waiters are woken
implicitly, as every blocked session re-checks its predicate when scheduled). -/
theorem mark_complete_idempotent_records_nonblocking (completed : Completed)
    (a : SocketAddress) :
    add_to_disconnects (add_to_disconnects completed a) a = add_to_disconnects completed a ∧
    a ∈ add_to_disconnects completed a ∧
    (∀ rv qa store i (s : Session), s.phase = Phase.respReady →
      ∃ o, sessionStep rv qa store completed i s = some o ∧
        o.completed = add_to_disconnects completed s.address) := by
  refine ⟨?_, mem_add_to_disconnects completed a, fun rv qa store i s hph => ?_⟩
  · rw [add_to_disconnects]
    rw [if_pos (mem_add_to_disconnects completed a)]
  · refine ⟨⟨Phase.done,
      [Event.send i (Message.peerDisconnect s.address.port), Event.markComplete i s.address],
      store, add_to_disconnects completed s.address⟩, ?_, rfl⟩
    simp only [sessionStep, hph]

/-- Witness for C7 at concrete values. -/
theorem mark_complete_idempotent_records_nonblocking_witness :
    add_to_disconnects (add_to_disconnects [] ⟨"h2", 20⟩) ⟨"h2", 20⟩ =
      add_to_disconnects [] ⟨"h2", 20⟩ ∧
    (⟨"h2", 20⟩ : SocketAddress) ∈ add_to_disconnects [] ⟨"h2", 20⟩ ∧
    (∀ rv qa store i (s : Session), s.phase = Phase.respReady →
      ∃ o, sessionStep rv qa store [] i s = some o ∧
        o.completed = add_to_disconnects [] s.address) :=
  mark_complete_idempotent_records_nonblocking [] ⟨"h2", 20⟩

/-! ## C10: the responder path always signals the barrier -/

/-- C10: the responder block sends `PeerDisconnect` and then executes
`_add_to_disconnects` before the handler returns, for every value of the
quit-after hook — in particular when `_quit_after` is `PeerDisconnect`, because
`QUIT_IF_REQUESTED(peer_disconnect...)` comes after `_add_to_disconnects` in
`_handle_connection`.  So the Disconnect Barrier is always signalled on the
responder path: after the step, the trace ends with the `PeerDisconnect` send
followed by the `markComplete`, the address is in the completed set, and the
handler has returned. -/
theorem responder_path_signals_barrier {c : Config} {i : Nat} {s : Session}
    (hs : c.sessions[i]? = some s) (hph : s.phase = Phase.respReady) :
    ∃ c', exec (Act.step i) c = some c' ∧
      c'.trace = c.trace ++ [Event.send i (Message.peerDisconnect s.address.port),
        Event.markComplete i s.address] ∧
      s.address ∈ c'.completed ∧
      c'.sessions[i]? = some { s with phase := Phase.done } := by
  refine ⟨{ c with
      sessions := c.sessions.set i { s with phase := Phase.done },
      store := c.store,
      completed := add_to_disconnects c.completed s.address,
      trace := c.trace ++ [Event.send i (Message.peerDisconnect s.address.port),
        Event.markComplete i s.address] }, ?_, rfl, ?_, ?_⟩
  · simp only [exec, hs, sessionStep, hph]
  · exact mem_add_to_disconnects c.completed s.address
  · exact getElem?_set_of_some _ hs

/-- A concrete configuration: one responder about to send `PeerDisconnect`, with
the quit-after hook set to `PeerDisconnect`. -/
def respCfg : Config :=
  { required_version := 1, quit_after := some MessageType.peerDisconnect,
    sessions := [{ advertise := ⟨1, "kb", "ka"⟩, response := "r",
                   address := ⟨"h2", 20⟩, phase := Phase.respReady }],
    store := [("ka", ⟨⟨"h1", 10⟩, 1⟩)],
    completed := [],
    trace := [] }

/-- Witness for C10 at a concrete configuration with the quit hook on
`PeerDisconnect`. -/
theorem responder_path_signals_barrier_witness :
    ∃ c', exec (Act.step 0) respCfg = some c' ∧
      c'.trace = respCfg.trace ++ [Event.send 0 (Message.peerDisconnect 20),
        Event.markComplete 0 ⟨"h2", 20⟩] ∧
      (⟨"h2", 20⟩ : SocketAddress) ∈ c'.completed ∧
      c'.sessions[0]? = some ⟨⟨1, "kb", "ka"⟩, "r", ⟨"h2", 20⟩, Phase.done⟩ :=
  @responder_path_signals_barrier respCfg 0
    { advertise := ⟨1, "kb", "ka"⟩, response := "r", address := ⟨"h2", 20⟩,
      phase := Phase.respReady } rfl rfl

/-- A handler step can only shrink the completed set, except for the responder
block, which inserts the session's own address and records the matching
`markComplete` event in the same step. -/
theorem sessionStep_mc_mem {rv : Nat} {qa : Option MessageType} {store : Store}
    {completed : Completed} {i : Nat} {s : Session} {o : Outcome}
    (h : sessionStep rv qa store completed i s = some o) :
    ∀ a ∈ o.completed, a ∈ completed ∨ Event.markComplete i a ∈ o.events := by
  intro a hmem
  rcases sessionStep_cases h with
      ⟨_, _, rfl⟩ | ⟨_, _, _, rfl⟩ | ⟨_, _, _, _, rfl⟩ | ⟨_, _, _, _, rfl⟩ |
      ⟨_, _, rfl⟩ | ⟨_, _, rfl⟩ | ⟨_, _, rfl⟩ | ⟨p, _, _, rfl⟩ | ⟨_, rfl⟩ |
      ⟨p, _, _, rfl⟩ | ⟨p, _, _, rfl⟩ | ⟨_, rfl⟩ | ⟨_, rfl⟩
  case _ => exact Or.inl hmem
  case _ => exact Or.inl hmem
  case _ => exact Or.inl hmem
  case _ => exact Or.inl hmem
  case _ => exact Or.inl hmem
  case _ => exact Or.inl hmem
  case _ => exact Or.inl hmem
  case _ => exact Or.inl hmem
  case _ => exact Or.inl hmem
  case _ => exact Or.inl hmem
  case _ => exact Or.inl (List.mem_of_mem_filter hmem)
  case _ => exact Or.inl hmem
  case _ =>
    change a ∈ add_to_disconnects completed s.address at hmem
    by_cases hin : s.address ∈ completed
    · rw [add_to_disconnects, if_pos hin] at hmem
      exact Or.inl hmem
    · rw [add_to_disconnects, if_neg hin] at hmem
      rcases List.mem_cons.mp hmem with rfl | hmem
      · exact Or.inr (by simp)
      · exact Or.inl hmem

/-- A `PeerIdentification` send can only be performed by the wait-for-disconnect
block, whose guard requires the carried address to be in the completed set. -/
theorem sessionStep_pi_mem {rv : Nat} {qa : Option MessageType} {store : Store}
    {completed : Completed} {i : Nat} {s : Session} {o : Outcome}
    (h : sessionStep rv qa store completed i s = some o)
    {i' v : Nat} {ip : String} {port : Nat}
    (hx : Event.send i' (Message.peerIdentification v ip port) ∈ o.events) :
    (⟨ip, port⟩ : SocketAddress) ∈ completed := by
  rcases sessionStep_cases h with
      ⟨_, _, rfl⟩ | ⟨_, _, _, rfl⟩ | ⟨_, _, _, _, rfl⟩ | ⟨_, _, _, _, rfl⟩ |
      ⟨_, _, rfl⟩ | ⟨_, _, rfl⟩ | ⟨_, _, rfl⟩ | ⟨p, _, _, rfl⟩ | ⟨_, rfl⟩ |
      ⟨p, _, _, rfl⟩ | ⟨p, _, hpm, rfl⟩ | ⟨_, rfl⟩ | ⟨_, rfl⟩ <;>
    simp at hx
  obtain ⟨-, -, rfl, rfl⟩ := hx
  exact hpm

/-- Barrier invariant: every address in the completed set has a recorded
`markComplete`, and every `PeerIdentification` send in the trace is preceded by a
`markComplete` for the exact address it carries. -/
theorem barrier_inv {init c : Config} (ht : init.trace = []) (hc : init.completed = [])
    (h : Reach init c) :
    (∀ a ∈ c.completed, ∃ j, Event.markComplete j a ∈ c.trace) ∧
    (∀ pre i v ip port post,
      c.trace = pre ++ Event.send i (Message.peerIdentification v ip port) :: post →
      ∃ j, Event.markComplete j (⟨ip, port⟩ : SocketAddress) ∈ pre) := by
  induction h with
  | refl =>
    constructor
    · intro a ha
      rw [hc] at ha
      cases ha
    · intro pre i v ip port post hdec
      rw [ht] at hdec
      exact absurd hdec.symm (List.append_ne_nil_of_right_ne_nil pre (by simp))
  | tail _ hstep ih =>
    obtain ⟨ihA, ihB⟩ := ih
    rcases hstep with ⟨act, ha⟩
    cases act with
    | timeout j =>
      obtain ⟨s, ph, hs, hto, rfl⟩ := exec_timeout_inv ha
      exact ⟨ihA, ihB⟩
    | step j =>
      obtain ⟨s, o, hs, ho, rfl⟩ := exec_step_inv ha
      constructor
      · intro a hmem
        rcases sessionStep_mc_mem ho a hmem with h1 | h1
        · obtain ⟨j', hj'⟩ := ihA a h1
          exact ⟨j', List.mem_append_left _ hj'⟩
        · exact ⟨j, List.mem_append_right _ h1⟩
      · intro pre i v ip port post hdec
        rcases append_split _ _ _ _ _ hdec with ⟨post', hold⟩ | ⟨pre', rfl, hnew⟩
        · exact ihB pre i v ip port post' hold
        · have hx : Event.send i (Message.peerIdentification v ip port) ∈ o.events := by
            rw [hnew]
            exact List.mem_append_right _ (List.mem_cons_self _ _)
          obtain ⟨j', hj'⟩ := ihA _ (sessionStep_pi_mem ho hx)
          exact ⟨j', List.mem_append_left _ hj'⟩

/-! ## C1: mark_complete happens before the PeerIdentification send -/

/-- C1: in every interleaving, the Initiator's handler sends `PeerIdentification`
only after the completion record for the Responder's address has been observed on
the Disconnect Barrier: wherever a `PeerIdentification` send carrying an address
occurs in a reachable trace, a `markComplete` (the Responder's
`_add_to_disconnects`) for that exact address occurs strictly before it. -/
theorem mark_complete_precedes_peer_identification
    {init c : Config} (ht : init.trace = []) (hc : init.completed = [])
    (h : Reach init c) {pre post : List Event} {i v : Nat} {ip : String} {port : Nat}
    (hdec : c.trace = pre ++ Event.send i (Message.peerIdentification v ip port) :: post) :
    ∃ j, Event.markComplete j (⟨ip, port⟩ : SocketAddress) ∈ pre :=
  (barrier_inv ht hc h).2 pre i v ip port post hdec

/-! ## C9: the challenge nonce is always the constant 1337 -/

/-- The plaintext encrypted into every `AdvertiseChallenge` event is the string
representation of the constant nonce. -/
theorem challenge_plaintext_of_step {rv : Nat} {qa : Option MessageType} {store : Store}
    {completed : Completed} {i : Nat} {s : Session} {o : Outcome}
    (h : sessionStep rv qa store completed i s = some o)
    {i' : Nat} {ct : Ciphertext}
    (hx : Event.send i' (Message.advertiseChallenge ct) ∈ o.events) :
    ct.plaintext = toString nonce := by
  rcases sessionStep_cases h with
      ⟨_, _, rfl⟩ | ⟨_, _, _, rfl⟩ | ⟨_, _, _, _, rfl⟩ | ⟨_, _, _, _, rfl⟩ |
      ⟨_, _, rfl⟩ | ⟨_, _, rfl⟩ | ⟨_, _, rfl⟩ | ⟨p, _, _, rfl⟩ | ⟨_, rfl⟩ |
      ⟨p, _, _, rfl⟩ | ⟨p, _, _, rfl⟩ | ⟨_, rfl⟩ | ⟨_, rfl⟩ <;>
    simp at hx
  all_goals
    obtain ⟨-, rfl⟩ := hx
  all_goals rfl

/-- Every `AdvertiseChallenge` in every reachable trace carries the plaintext of
the fixed nonce. -/
theorem challenge_plaintext_inv {init c : Config} (ht : init.trace = [])
    (h : Reach init c) :
    ∀ i ct, Event.send i (Message.advertiseChallenge ct) ∈ c.trace →
      ct.plaintext = toString nonce := by
  induction h with
  | refl =>
    intro i ct hx
    rw [ht] at hx
    cases hx
  | tail _ hstep ih =>
    intro i ct hx
    rcases hstep with ⟨act, ha⟩
    cases act with
    | timeout j =>
      obtain ⟨s, ph, hs, hto, rfl⟩ := exec_timeout_inv ha
      exact ih i ct hx
    | step j =>
      obtain ⟨s, o, hs, ho, rfl⟩ := exec_step_inv ha
      rcases List.mem_append.mp hx with hx | hx
      · exact ih i ct hx
      · exact challenge_plaintext_of_step ho hx

/-- C9: the server-chosen nonce is the fixed constant 1337 — in every session of
every run, the plaintext passed to `public_encrypt` when building the
`AdvertiseChallenge` is the string rendering of `nonce = 1337`, i.e. `"1337"`;
the nonce is never freshly chosen per session. -/
theorem challenge_nonce_constant_1337 {init c : Config} (ht : init.trace = [])
    (h : Reach init c) {i : Nat} {ct : Ciphertext}
    (hx : Event.send i (Message.advertiseChallenge ct) ∈ c.trace) :
    ct.plaintext = toString nonce ∧ toString nonce = "1337" :=
  ⟨challenge_plaintext_inv ht h i ct hx, by decide⟩

/-! ## The canonical matched rendezvous run -/

/-- A mediator configuration with two fresh sessions whose advertisements mutually
reference each other: session 0 advertises `own_key = ka, target_key = kb` and
session 1 advertises `own_key = kb, target_key = ka`. -/
def pairInit (rv vA vB : Nat) (ka kb rA rB : String) (aA aB : SocketAddress) : Config :=
  { required_version := rv, quit_after := none,
    sessions := [⟨⟨vA, ka, kb⟩, rA, aA, Phase.start⟩, ⟨⟨vB, kb, ka⟩, rB, aB, Phase.start⟩],
    store := [], completed := [], trace := [] }

/-- The canonical schedule: session 0 (the first arrival) runs through advertise,
challenge, role lookup (absent) and registration, then parks in `await`; session 1
(the second arrival) runs to completion as Responder; finally session 0 wakes from
`await` and finishes as Initiator. -/
def canonicalSchedule : List Act :=
  [Act.step 0, Act.step 0, Act.step 0, Act.step 0,
   Act.step 1, Act.step 1, Act.step 1, Act.step 1, Act.step 1,
   Act.step 0, Act.step 0]

/-- The canonical run at concrete values. -/
def pairInitC : Config := pairInit 1 1 1 "ka" "kb" "ra" "rb" ⟨"h1", 10⟩ ⟨"h2", 20⟩

/-- The final configuration of the canonical concrete run. -/
def pairFinal : Config := (run pairInitC canonicalSchedule).getD pairInitC

/-- Witness for C1: in the canonical concrete run, the final trace ends with the
Initiator's `PeerIdentification` send and the Responder's `markComplete` for that
address occurs before it. -/
theorem mark_complete_precedes_peer_identification_witness :
    ∃ j, Event.markComplete j (⟨"h2", 20⟩ : SocketAddress) ∈ pairFinal.trace.dropLast :=
  @mark_complete_precedes_peer_identification pairInitC pairFinal rfl rfl
    (@run_reach pairInitC pairFinal canonicalSchedule (by decide))
    pairFinal.trace.dropLast [] 0 1 "h2" 20 (by decide)

/-- Witness for C9: the canonical concrete run contains an `AdvertiseChallenge`
whose ciphertext was built from plaintext `"1337"`. -/
theorem challenge_nonce_constant_1337_witness :
    Event.send 0 (Message.advertiseChallenge ⟨"1337", "ka"⟩) ∈ pairFinal.trace ∧
    (⟨"1337", "ka"⟩ : Ciphertext).plaintext = toString nonce ∧ toString nonce = "1337" :=
  ⟨by decide,
   @challenge_nonce_constant_1337 pairInitC pairFinal rfl
     (@run_reach pairInitC pairFinal canonicalSchedule (by decide))
     0 ⟨"1337", "ka"⟩ (by decide)⟩


theorem sentTo_nil (i : Nat) : sentTo i [] = [] := rfl

theorem sentTo_recv (i j : Nat) (m : Message) (tr : List Event) :
    sentTo i (Event.recv j m :: tr) = sentTo i tr := rfl

theorem sentTo_send_self (i : Nat) (m : Message) (tr : List Event) :
    sentTo i (Event.send i m :: tr) = m :: sentTo i tr := by
  simp [sentTo, List.filterMap_cons]

/-- The mediator's required version and quit-after hook never change. -/
theorem reach_const {init c : Config} (h : Reach init c) :
    c.required_version = init.required_version ∧ c.quit_after = init.quit_after := by
  induction h with
  | refl => exact ⟨rfl, rfl⟩
  | tail _ hstep ih =>
    rcases hstep with ⟨act, ha⟩
    cases act with
    | step j =>
      obtain ⟨s, o, hs, ho, rfl⟩ := exec_step_inv ha
      exact ih
    | timeout j =>
      obtain ⟨s, ph, hs, hto, rfl⟩ := exec_timeout_inv ha
      exact ih

/-- A session's advertisement, response and address never change along a run. -/
theorem reach_session_fields {init c : Config} (h : Reach init c) (i : Nat) {s : Session}
    (hs : init.sessions[i]? = some s) :
    ∃ s', c.sessions[i]? = some s' ∧ s'.advertise = s.advertise ∧
      s'.response = s.response ∧ s'.address = s.address := by
  induction h with
  | refl => exact ⟨s, hs, rfl, rfl, rfl⟩
  | tail _ hstep ih =>
    obtain ⟨s', hs', ha', hr', had'⟩ := ih
    rcases hstep with ⟨act, ha⟩
    obtain ⟨-, hf⟩ := exec_session_fields ha i
    obtain ⟨s'', hs'', h1, h2, h3⟩ := hf s' hs'
    exact ⟨s'', hs'', h1.trans ha', h2.trans hr', h3.trans had'⟩

/-! ## C4: a session below the required version gets exactly one AdvertiseAbort -/

/-- C4: a session whose `Advertise` carries a protocol version strictly below the
mediator's required version receives exactly one `AdvertiseAbort` — whose reason
string is `"Required protocol version: "` followed by the required version — and
then the handler returns; no `AdvertiseChallenge` and no other message is ever
sent to that session: in every reachable configuration the session either has not
yet been served (nothing sent) or has terminated with that single abort as the
entire list of messages ever sent to it.  (The quit-after test hook is off, as in
normal operation.) -/
theorem low_version_exactly_one_abort
    {init c : Config} {i : Nat} {s : Session}
    (hq : init.quit_after = none) (ht : init.trace = [])
    (hs : init.sessions[i]? = some s) (hph : s.phase = Phase.start)
    (hlow : s.advertise.version < init.required_version)
    (h : Reach init c) :
    (∃ s', c.sessions[i]? = some s' ∧
      ((s'.phase = Phase.start ∧ sentTo i c.trace = []) ∨
       (s'.phase = Phase.done ∧
        sentTo i c.trace = [Message.advertiseAbort (abortReason init.required_version)]))) ∧
    abortReason init.required_version =
      "Required protocol version: " ++ toString init.required_version := by
  refine ⟨?_, rfl⟩
  induction h with
  | refl => exact ⟨s, hs, Or.inl ⟨hph, by rw [ht]; rfl⟩⟩
  | tail hr hstep ih =>
    obtain ⟨s', hs', hcase⟩ := ih
    rcases hstep with ⟨act, ha⟩
    cases act with
    | timeout j =>
      obtain ⟨s0, ph, hs0, hto, rfl⟩ := exec_timeout_inv ha
      by_cases hij : j = i
      · subst hij
        have hss : s0 = s' := Option.some.inj (hs0.symm.trans hs')
        obtain ⟨hph0, -, -⟩ := sessionTimeout_inv hto
        rw [hss] at hph0
        rcases hcase with ⟨hp, -⟩ | ⟨hp, -⟩ <;> rw [hp] at hph0 <;> cases hph0
      · refine ⟨s', ?_, hcase⟩
        simp only [List.getElem?_set_ne hij]
        exact hs'
    | step j =>
      obtain ⟨s0, o, hs0, ho, rfl⟩ := exec_step_inv ha
      by_cases hij : j = i
      · subst hij
        have hss : s0 = s' := Option.some.inj (hs0.symm.trans hs')
        rw [← hss] at hcase
        obtain ⟨hrv, hqa⟩ := reach_const hr
        obtain ⟨sF, hsF, hadv, -, -⟩ := reach_session_fields hr j hs
        have hsF' : sF = s0 := Option.some.inj (hsF.symm.trans hs0)
        rw [hsF'] at hadv
        rcases hcase with ⟨hp, hsent⟩ | ⟨hp, hsent⟩
        · rcases sessionStep_cases ho with
              ⟨-, hqa2, rfl⟩ | ⟨-, -, -, rfl⟩ | ⟨-, -, hnl, -, rfl⟩ | ⟨-, -, hnl, -, rfl⟩ |
              ⟨hp2, -, rfl⟩ | ⟨hp2, -, rfl⟩ | ⟨hp2, -, rfl⟩ | ⟨p, hp2, -, rfl⟩ | ⟨hp2, rfl⟩ |
              ⟨p, hp2, -, rfl⟩ | ⟨p, hp2, -, rfl⟩ | ⟨hp2, rfl⟩ | ⟨hp2, rfl⟩
          · rw [hqa, hq] at hqa2
            cases hqa2
          · refine ⟨{ s0 with phase := Phase.done }, getElem?_set_of_some _ hs0,
              Or.inr ⟨rfl, ?_⟩⟩
            simp only [sentTo_append, hsent, List.nil_append, sentTo_recv,
              sentTo_send_self, sentTo_nil, hrv]
          · exact absurd (by rw [hadv, hrv]; exact hlow) hnl
          · exact absurd (by rw [hadv, hrv]; exact hlow) hnl
          · rw [hp] at hp2; cases hp2
          · rw [hp] at hp2; cases hp2
          · rw [hp] at hp2; cases hp2
          · rw [hp] at hp2; cases hp2
          · rw [hp] at hp2; cases hp2
          · rw [hp] at hp2; cases hp2
          · rw [hp] at hp2; cases hp2
          · rw [hp] at hp2; cases hp2
          · rw [hp] at hp2; cases hp2
        · simp only [sessionStep, hp] at ho
          cases ho
      · have hnil : sentTo i o.events = [] :=
          sentTo_eq_nil i o.events
            (fun e he => by rw [sessionStep_events_sid ho e he]; exact hij)
        refine ⟨s', ?_, ?_⟩
        · simp only [List.getElem?_set_ne hij]
          exact hs'
        · rcases hcase with ⟨hp, hsent⟩ | ⟨hp, hsent⟩
          · exact Or.inl ⟨hp, by
              simp only [sentTo_append, hsent, hnil, List.append_nil]⟩
          · exact Or.inr ⟨hp, by
              simp only [sentTo_append, hsent, hnil, List.append_nil]⟩

/-- A single session advertising version 0 against required version 1. -/
def lowCfg : Config :=
  { required_version := 1, quit_after := none,
    sessions := [⟨⟨0, "ka", "kb"⟩, "ra", ⟨"h1", 10⟩, Phase.start⟩],
    store := [], completed := [], trace := [] }

/-- The configuration after serving the low-version session. -/
def lowFinal : Config := (run lowCfg [Act.step 0]).getD lowCfg

/-- Witness for C4 at the concrete low-version scenario of spec sec 8. -/
theorem low_version_exactly_one_abort_witness :
    (∃ s', lowFinal.sessions[0]? = some s' ∧
      ((s'.phase = Phase.start ∧ sentTo 0 lowFinal.trace = []) ∨
       (s'.phase = Phase.done ∧
        sentTo 0 lowFinal.trace = [Message.advertiseAbort (abortReason 1)]))) ∧
    abortReason 1 = "Required protocol version: " ++ toString 1 :=
  @low_version_exactly_one_abort lowCfg lowFinal 0
    ⟨⟨0, "ka", "kb"⟩, "ra", ⟨"h1", 10⟩, Phase.start⟩
    rfl rfl rfl rfl (by decide)
    (@run_reach lowCfg lowFinal [Act.step 0] (by decide))

/-! ## C5: an Initiator whose counterpart never arrives times out silently -/

/-- The challenge message a given session is sent during its handshake. -/
def challengeMsg (s : Session) : Message :=
  Message.advertiseChallenge (public_encrypt s.advertise.our_key (toString nonce))

/-- Per-phase description of everything ever sent to one session: nothing before
the challenge, exactly the challenge while the handshake is in flight, and
unconstrained once the handler has returned. -/
def ChallengeOnly (i : Nat) (ch : Message) (s : Session) (tr : List Event) : Prop :=
  match s.phase with
  | Phase.start => sentTo i tr = []
  | Phase.done => True
  | _ => sentTo i tr = [ch]

/-- For a session with an acceptable version and the quit hook off, the only
message sent to it between the challenge and the handler's return is the
challenge itself. -/
theorem session_sends_inv {init c : Config} {i : Nat} {s : Session}
    (hq : init.quit_after = none) (ht : init.trace = [])
    (hs : init.sessions[i]? = some s) (hph : s.phase = Phase.start)
    (hok : init.required_version ≤ s.advertise.version)
    (h : Reach init c) :
    ∃ s', c.sessions[i]? = some s' ∧ ChallengeOnly i (challengeMsg s) s' c.trace := by
  induction h with
  | refl =>
    refine ⟨s, hs, ?_⟩
    simp only [ChallengeOnly, hph, ht]
    rfl
  | tail hr hstep ih =>
    obtain ⟨s', hs', hinv⟩ := ih
    rcases hstep with ⟨act, ha⟩
    cases act with
    | timeout j =>
      obtain ⟨s0, ph, hs0, hto, rfl⟩ := exec_timeout_inv ha
      by_cases hij : j = i
      · subst hij
        obtain ⟨-, -, hphd⟩ := sessionTimeout_inv hto
        subst hphd
        exact ⟨{ s0 with phase := Phase.done }, getElem?_set_of_some _ hs0,
          by simp [ChallengeOnly]⟩
      · exact ⟨s', by simp only [List.getElem?_set_ne hij]; exact hs', hinv⟩
    | step j =>
      obtain ⟨s0, o, hs0, ho, rfl⟩ := exec_step_inv ha
      by_cases hij : j = i
      · subst hij
        have hss : s0 = s' := Option.some.inj (hs0.symm.trans hs')
        rw [← hss] at hinv
        obtain ⟨hrv, hqa⟩ := reach_const hr
        obtain ⟨sF, hsF, hadv, -, -⟩ := reach_session_fields hr j hs
        have hsF' : sF = s0 := Option.some.inj (hsF.symm.trans hs0)
        rw [hsF'] at hadv
        rcases sessionStep_cases ho with
            ⟨hp2, hqa2, rfl⟩ | ⟨hp2, -, hlt, rfl⟩ | ⟨hp2, -, -, hqa2, rfl⟩ |
            ⟨hp2, -, -, -, rfl⟩ | ⟨hp2, -, rfl⟩ | ⟨hp2, -, rfl⟩ | ⟨hp2, -, rfl⟩ |
            ⟨p, hp2, -, rfl⟩ | ⟨hp2, rfl⟩ | ⟨p, hp2, -, rfl⟩ | ⟨p, hp2, -, rfl⟩ |
            ⟨hp2, rfl⟩ | ⟨hp2, rfl⟩
        · rw [hqa, hq] at hqa2
          cases hqa2
        · rw [hadv, hrv] at hlt
          exact absurd hlt (Nat.not_lt.mpr hok)
        · rw [hqa, hq] at hqa2
          cases hqa2
        · refine ⟨{ s0 with phase := Phase.sentChallenge }, getElem?_set_of_some _ hs0, ?_⟩
          simp only [ChallengeOnly, hp2] at hinv
          simp only [ChallengeOnly, sentTo_append, hinv, List.nil_append, sentTo_recv,
            sentTo_send_self, sentTo_nil, challengeMsg, hadv]
        · exact ⟨{ s0 with phase := Phase.done }, getElem?_set_of_some _ hs0,
            by simp [ChallengeOnly]⟩
        · refine ⟨{ s0 with phase := Phase.atRole }, getElem?_set_of_some _ hs0, ?_⟩
          simp only [ChallengeOnly, hp2] at hinv
          simp only [ChallengeOnly, sentTo_append, hinv, sentTo_recv, sentTo_nil,
            List.append_nil]
        · refine ⟨{ s0 with phase := Phase.gotAbsent }, getElem?_set_of_some _ hs0, ?_⟩
          simp only [ChallengeOnly, hp2] at hinv
          simp only [ChallengeOnly, sentTo_append, hinv, sentTo_nil, List.append_nil]
          rfl
        · refine ⟨{ s0 with phase := Phase.asResponder }, getElem?_set_of_some _ hs0, ?_⟩
          simp only [ChallengeOnly, hp2] at hinv
          simp only [ChallengeOnly, sentTo_append, hinv, sentTo_nil, List.append_nil]
          rfl
        · refine ⟨{ s0 with phase := Phase.awaiting }, getElem?_set_of_some _ hs0, ?_⟩
          simp only [ChallengeOnly, hp2] at hinv
          simp only [ChallengeOnly, sentTo_append, hinv, sentTo_nil, List.append_nil]
          rfl
        · refine ⟨{ s0 with phase := Phase.waitingDisconnect p }, getElem?_set_of_some _ hs0, ?_⟩
          simp only [ChallengeOnly, hp2] at hinv
          simp only [ChallengeOnly, sentTo_append, hinv, sentTo_nil, List.append_nil]
        · exact ⟨{ s0 with phase := Phase.done }, getElem?_set_of_some _ hs0,
            by simp [ChallengeOnly]⟩
        · refine ⟨{ s0 with phase := Phase.respReady }, getElem?_set_of_some _ hs0, ?_⟩
          simp only [ChallengeOnly, hp2] at hinv
          simp only [ChallengeOnly, sentTo_append, hinv, sentTo_nil, List.append_nil]
          rfl
        · exact ⟨{ s0 with phase := Phase.done }, getElem?_set_of_some _ hs0,
            by simp [ChallengeOnly]⟩
      · have hnil : sentTo i o.events = [] :=
          sentTo_eq_nil i o.events
            (fun e he => by rw [sessionStep_events_sid ho e he]; exact hij)
        refine ⟨s', by simp only [List.getElem?_set_ne hij]; exact hs', ?_⟩
        cases hp : s'.phase <;> simp only [ChallengeOnly, hp] at hinv ⊢ <;>
          first
            | trivial
            | simp [sentTo_append, hinv, hnil]

/-- C5: an Initiator session whose counterpart has not registered its target key
when the 2000 ms `await` timeout fires terminates without sending any further
message after the `AdvertiseChallenge` (the only message ever sent to it is that
challenge), the handler returns (releasing the connection), and nothing further
is ever sent to it in any continuation of the run. -/
theorem await_timeout_no_further_message
    {init c : Config} {i : Nat} {s : Session}
    (hq : init.quit_after = none) (ht : init.trace = [])
    (hs : init.sessions[i]? = some s) (hph : s.phase = Phase.start)
    (hok : init.required_version ≤ s.advertise.version)
    (h : Reach init c)
    {s' : Session} (hs' : c.sessions[i]? = some s') (hph' : s'.phase = Phase.awaiting)
    (habs : KeyToIdentifierStore.get c.store s'.advertise.their_key = none) :
    ∃ c', exec (Act.timeout i) c = some c' ∧ c'.trace = c.trace ∧
      sentTo i c.trace =
        [Message.advertiseChallenge (public_encrypt s.advertise.our_key (toString nonce))] ∧
      ∀ d, Reach c' d → sentTo i d.trace = sentTo i c.trace ∧
        ∃ s'', d.sessions[i]? = some s'' ∧ s''.phase = Phase.done := by
  have hexec : exec (Act.timeout i) c =
      some { c with sessions := c.sessions.set i { s' with phase := Phase.done } } := by
    simp only [exec, hs', sessionTimeout, hph', habs]
  obtain ⟨sI, hsI, hinv⟩ := session_sends_inv hq ht hs hph hok h
  have hss : sI = s' := Option.some.inj (hsI.symm.trans hs')
  rw [hss] at hinv
  have hsent : sentTo i c.trace = [challengeMsg s] := by
    simpa only [ChallengeOnly, hph'] using hinv
  refine ⟨_, hexec, rfl, hsent, ?_⟩
  intro d hd
  obtain ⟨⟨s'', hs'', hphd⟩, hsents⟩ :=
    done_frozen (getElem?_set_of_some { s' with phase := Phase.done } hs') rfl hd
  exact ⟨hsents, s'', hs'', hphd⟩

/-- A single session whose target key never arrives. -/
def soloCfg : Config :=
  { required_version := 1, quit_after := none,
    sessions := [⟨⟨1, "ka", "kb"⟩, "ra", ⟨"h1", 10⟩, Phase.start⟩],
    store := [], completed := [], trace := [] }

/-- The single session run up to its `await` block. -/
def soloAwait : Config :=
  (run soloCfg [Act.step 0, Act.step 0, Act.step 0, Act.step 0]).getD soloCfg

/-- Witness for C5: the lone session parks in `await`, its counterpart key is
absent, and firing the timeout ends the session with only the challenge ever
sent. -/
theorem await_timeout_no_further_message_witness :
    ∃ c', exec (Act.timeout 0) soloAwait = some c' ∧ c'.trace = soloAwait.trace ∧
      sentTo 0 soloAwait.trace =
        [Message.advertiseChallenge (public_encrypt "ka" (toString nonce))] ∧
      ∀ d, Reach c' d → sentTo 0 d.trace = sentTo 0 soloAwait.trace ∧
        ∃ s'', d.sessions[0]? = some s'' ∧ s''.phase = Phase.done :=
  @await_timeout_no_further_message soloCfg soloAwait 0
    ⟨⟨1, "ka", "kb"⟩, "ra", ⟨"h1", 10⟩, Phase.start⟩
    rfl rfl rfl rfl (by decide)
    (@run_reach soloCfg soloAwait [Act.step 0, Act.step 0, Act.step 0, Act.step 0]
      (by decide))
    ⟨⟨1, "ka", "kb"⟩, "ra", ⟨"h1", 10⟩, Phase.awaiting⟩
    (by decide) rfl (by decide)

/-- The final configuration of the canonical schedule on a mutually-referencing
pair: both handlers returned, both peers registered, the completion record
consumed, and the full trace of the rendezvous. -/
def pairFinalG (rv vA vB : Nat) (ka kb rA rB : String) (aA aB : SocketAddress) : Config :=
  { required_version := rv, quit_after := none,
    sessions := [⟨⟨vA, ka, kb⟩, rA, aA, Phase.done⟩, ⟨⟨vB, kb, ka⟩, rB, aB, Phase.done⟩],
    store := [(kb, ⟨aB, vB⟩), (ka, ⟨aA, vA⟩)],
    completed := [],
    trace := [Event.recv 0 (Message.advertise ⟨vA, ka, kb⟩),
      Event.send 0 (Message.advertiseChallenge (public_encrypt ka (toString nonce))),
      Event.recv 0 (Message.advertiseResponse rA),
      Event.storeGet 0 kb none,
      Event.storePut 0 ka ⟨aA, vA⟩,
      Event.recv 1 (Message.advertise ⟨vB, kb, ka⟩),
      Event.send 1 (Message.advertiseChallenge (public_encrypt kb (toString nonce))),
      Event.recv 1 (Message.advertiseResponse rB),
      Event.storeGet 1 ka (some ⟨aA, vA⟩),
      Event.storePut 1 kb ⟨aB, vB⟩,
      Event.send 1 (Message.peerDisconnect aB.port),
      Event.markComplete 1 aB,
      Event.consumeComplete 0 aB,
      Event.send 0 (Message.peerIdentification vB aB.ip aB.port)] }

/-- C2 (amended): for every valid mutually-referencing pair where the second
session's role-resolution lookup happens after the first has registered — the
canonical interleaving in which B arrives strictly after A has completed its
challenge exchange and parked in `await` — A receives `PeerIdentification`
carrying B's address and protocol version, and B receives `PeerDisconnect`
carrying B's own connection port. -/
theorem advertise_pair_canonical_outcome
    (rv vA vB : Nat) (ka kb rA rB : String) (aA aB : SocketAddress)
    (hne : ka ≠ kb) (hvA : rv ≤ vA) (hvB : rv ≤ vB) :
    run (pairInit rv vA vB ka kb rA rB aA aB) canonicalSchedule =
      some (pairFinalG rv vA vB ka kb rA rB aA aB) ∧
    Event.send 0 (Message.peerIdentification vB aB.ip aB.port) ∈
      (pairFinalG rv vA vB ka kb rA rB aA aB).trace ∧
    Event.send 1 (Message.peerDisconnect aB.port) ∈
      (pairFinalG rv vA vB ka kb rA rB aA aB).trace := by
  have hA : ¬ vA < rv := Nat.not_lt.mpr hvA
  have hB : ¬ vB < rv := Nat.not_lt.mpr hvB
  refine ⟨?_, by simp [pairFinalG], by simp [pairFinalG]⟩
  simp [pairInit, pairFinalG, canonicalSchedule, run, exec, sessionStep,
    KeyToIdentifierStore.get, KeyToIdentifierStore.put, add_to_disconnects,
    erase_disconnect, hA, hB]

/-- Witness for the amended C2 at the concrete scenario of spec sec 8. -/
theorem advertise_pair_canonical_outcome_witness :
    run pairInitC canonicalSchedule = some (pairFinalG 1 1 1 "ka" "kb" "ra" "rb" ⟨"h1", 10⟩ ⟨"h2", 20⟩) ∧
    Event.send 0 (Message.peerIdentification 1 "h2" 20) ∈
      (pairFinalG 1 1 1 "ka" "kb" "ra" "rb" ⟨"h1", 10⟩ ⟨"h2", 20⟩).trace ∧
    Event.send 1 (Message.peerDisconnect 20) ∈
      (pairFinalG 1 1 1 "ka" "kb" "ra" "rb" ⟨"h1", 10⟩ ⟨"h2", 20⟩).trace :=
  advertise_pair_canonical_outcome 1 1 1 "ka" "kb" "ra" "rb" ⟨"h1", 10⟩ ⟨"h2", 20⟩
    (by decide) (by decide) (by decide)

/-- The overtaking interleaving: both sessions run their role-resolution `get`
before either runs its `put`.  B's `Advertise` is still received strictly after
A's challenge exchange completed. -/
def raceSched : List Act :=
  [Act.step 0, Act.step 0, Act.step 0,
   Act.step 1, Act.step 1, Act.step 1,
   Act.step 0, Act.step 1, Act.step 0, Act.step 1]

/-- The configuration the overtaking interleaving reaches. -/
def raceFinal : Config := (run pairInitC raceSched).getD pairInitC

/-- Counterexample to C2 as stated: under the overtaking interleaving of the
non-atomic `get`-then-`put`, B's `Advertise` is received strictly after A has
completed its challenge exchange (trace indices 2 and 4), yet both sessions take
the Initiator branch, both park forever in `_wait_for_disconnect` (the
configuration is stuck), and in every continuation A never receives a
`PeerIdentification` and B never receives a `PeerDisconnect`. -/
theorem advertise_pair_overtaking_counterexample :
    run pairInitC raceSched = some raceFinal ∧
    raceFinal.trace[2]? = some (Event.recv 0 (Message.advertiseResponse "ra")) ∧
    raceFinal.trace[4]? = some (Event.recv 1 (Message.advertise ⟨1, "kb", "ka"⟩)) ∧
    (∀ a, exec a raceFinal = none) ∧
    (∀ d, Reach raceFinal d →
      (∀ v ip port, Event.send 0 (Message.peerIdentification v ip port) ∉ d.trace) ∧
      (∀ port, Event.send 1 (Message.peerDisconnect port) ∉ d.trace)) := by
  have hsess : raceFinal.sessions =
      [⟨⟨1, "ka", "kb"⟩, "ra", ⟨"h1", 10⟩, Phase.waitingDisconnect ⟨⟨"h2", 20⟩, 1⟩⟩,
       ⟨⟨1, "kb", "ka"⟩, "rb", ⟨"h2", 20⟩, Phase.waitingDisconnect ⟨⟨"h1", 10⟩, 1⟩⟩] := by
    decide
  have hstuck : ∀ a, exec a raceFinal = none := by
    apply stuck_config
    intro i s hs
    rw [hsess] at hs
    rcases two_sessions_getElem hs with ⟨rfl, rfl⟩ | ⟨rfl, rfl⟩
    · exact ⟨by decide, by decide⟩
    · exact ⟨by decide, by decide⟩
  have htr : raceFinal.trace =
      [Event.recv 0 (Message.advertise ⟨1, "ka", "kb"⟩),
       Event.send 0 (Message.advertiseChallenge ⟨"1337", "ka"⟩),
       Event.recv 0 (Message.advertiseResponse "ra"),
       Event.storeGet 0 "kb" none,
       Event.recv 1 (Message.advertise ⟨1, "kb", "ka"⟩),
       Event.send 1 (Message.advertiseChallenge ⟨"1337", "kb"⟩),
       Event.recv 1 (Message.advertiseResponse "rb"),
       Event.storeGet 1 "ka" none,
       Event.storePut 0 "ka" ⟨⟨"h1", 10⟩, 1⟩,
       Event.storePut 1 "kb" ⟨⟨"h2", 20⟩, 1⟩] := by decide
  refine ⟨by decide, by decide, by decide, hstuck, ?_⟩
  intro d hd
  rw [reach_stuck hstuck hd]
  refine ⟨fun v ip port hmem => ?_, fun port hmem => ?_⟩
  · rw [htr] at hmem
    simp at hmem
  · rw [htr] at hmem
    simp at hmem

/-! ## C3: role resolution between two mutually-referencing sessions -/

/-- Session `i` has performed its role-resolution `get` on `key` (with any
result). -/
def GetEvt (i : Nat) (key : String) (tr : List Event) : Prop :=
  ∃ res, Event.storeGet i key res ∈ tr

/-- Session `i`'s role-resolution `get` on `key` found a record — i.e. the
session took the Responder branch of `_handle_connection`. -/
def GotSome (i : Nat) (key : String) (tr : List Event) : Prop :=
  ∃ p, Event.storeGet i key (some p) ∈ tr

/-- Phases strictly before the role-resolution `get`. -/
def preGet : Phase → Prop
  | Phase.start => True
  | Phase.sentChallenge => True
  | Phase.atRole => True
  | _ => False

/-- Phases strictly after the role-resolution `get` and before the handler
returns. -/
def postGet : Phase → Prop
  | Phase.gotAbsent => True
  | Phase.awaiting => True
  | Phase.waitingDisconnect _ => True
  | Phase.asResponder => True
  | Phase.respReady => True
  | _ => False

theorem getEvt_mono {i : Nat} {key : String} {tr new : List Event}
    (h : GetEvt i key tr) : GetEvt i key (tr ++ new) := by
  obtain ⟨r, hr⟩ := h
  exact ⟨r, List.mem_append_left _ hr⟩

theorem gotSome_mono {i : Nat} {key : String} {tr new : List Event}
    (h : GotSome i key tr) : GotSome i key (tr ++ new) := by
  obtain ⟨p, hp⟩ := h
  exact ⟨p, List.mem_append_left _ hp⟩

theorem getEvt_append_no {i : Nat} {key : String} {tr new : List Event}
    (hnew : ∀ res, Event.storeGet i key res ∉ new)
    (h : GetEvt i key (tr ++ new)) : GetEvt i key tr := by
  obtain ⟨r, hr⟩ := h
  rcases List.mem_append.mp hr with hr | hr
  · exact ⟨r, hr⟩
  · exact absurd hr (hnew r)

theorem gotSome_append_no {i : Nat} {key : String} {tr new : List Event}
    (hnew : ∀ p, Event.storeGet i key (some p) ∉ new)
    (h : GotSome i key (tr ++ new)) : GotSome i key tr := by
  obtain ⟨p, hp⟩ := h
  rcases List.mem_append.mp hp with hp | hp
  · exact ⟨p, hp⟩
  · exact absurd hp (hnew p)

theorem KeyToIdentifierStore.get_put_self (st : Store) (k : String) (r : PeerIdentifier) :
    KeyToIdentifierStore.get (KeyToIdentifierStore.put st k r) k = some r := by
  simp [KeyToIdentifierStore.get, KeyToIdentifierStore.put]

theorem KeyToIdentifierStore.get_put_ne (st : Store) (k k' : String) (r : PeerIdentifier)
    (h : k ≠ k') : KeyToIdentifierStore.get (KeyToIdentifierStore.put st k' r) k =
      KeyToIdentifierStore.get st k := by
  simp [KeyToIdentifierStore.get, KeyToIdentifierStore.put, h]

/-- The number of sessions never changes. -/
theorem reach_sessions_length {init c : Config} (h : Reach init c) :
    c.sessions.length = init.sessions.length := by
  induction h with
  | refl => rfl
  | tail _ hstep ih =>
    rcases hstep with ⟨act, ha⟩
    exact (exec_session_fields ha 0).1.trans ih

/-- The inductive invariant tying role resolution of the mutually-referencing
pair to store contents and trace events: a key is present only after its owner's
`get` has run; a Responder-branch `get` means the counterpart's key is (and
stays) present; no `get` event exists before the session reaches role
resolution, and one exists as soon as it has passed it; and the two sessions
never both take the Responder branch. -/
structure MutualInv (ka kb : String) (c : Config) : Prop where
  j1 : (∃ r, KeyToIdentifierStore.get c.store ka = some r) → GetEvt 0 kb c.trace
  j2 : (∃ r, KeyToIdentifierStore.get c.store kb = some r) → GetEvt 1 ka c.trace
  j3 : GotSome 0 kb c.trace → ∃ r, KeyToIdentifierStore.get c.store kb = some r
  j4 : GotSome 1 ka c.trace → ∃ r, KeyToIdentifierStore.get c.store ka = some r
  j5 : ∀ s0, c.sessions[0]? = some s0 → preGet s0.phase → ¬ GetEvt 0 kb c.trace
  j6 : ∀ s1, c.sessions[1]? = some s1 → preGet s1.phase → ¬ GetEvt 1 ka c.trace
  j7 : ∀ s0, c.sessions[0]? = some s0 → postGet s0.phase → GetEvt 0 kb c.trace
  j8 : ∀ s1, c.sessions[1]? = some s1 → postGet s1.phase → GetEvt 1 ka c.trace
  g : ¬(GotSome 0 kb c.trace ∧ GotSome 1 ka c.trace)

/-- Invariant preservation for steps that neither touch the store nor record a
role-resolution `get` of either session. -/
theorem mutualInv_silent {ka kb : String} {c c' : Config} (inv : MutualInv ka kb c)
    {new : List Event}
    (hstore : c'.store = c.store) (htrace : c'.trace = c.trace ++ new)
    (h0 : ∀ res, Event.storeGet 0 kb res ∉ new)
    (h1 : ∀ res, Event.storeGet 1 ka res ∉ new)
    (hp0 : ∀ s0', c'.sessions[0]? = some s0' →
      (preGet s0'.phase → ∃ t0, c.sessions[0]? = some t0 ∧ preGet t0.phase) ∧
      (postGet s0'.phase → ∃ t0, c.sessions[0]? = some t0 ∧ postGet t0.phase))
    (hp1 : ∀ s1', c'.sessions[1]? = some s1' →
      (preGet s1'.phase → ∃ t1, c.sessions[1]? = some t1 ∧ preGet t1.phase) ∧
      (postGet s1'.phase → ∃ t1, c.sessions[1]? = some t1 ∧ postGet t1.phase)) :
    MutualInv ka kb c' := by
  refine ⟨?_, ?_, ?_, ?_, ?_, ?_, ?_, ?_, ?_⟩
  · rw [hstore, htrace]
    exact fun hy => getEvt_mono (inv.j1 hy)
  · rw [hstore, htrace]
    exact fun hy => getEvt_mono (inv.j2 hy)
  · rw [hstore, htrace]
    exact fun hy => inv.j3 (gotSome_append_no (fun p => h0 (some p)) hy)
  · rw [hstore, htrace]
    exact fun hy => inv.j4 (gotSome_append_no (fun p => h1 (some p)) hy)
  · intro s0 hs0 hpre
    rw [htrace]
    obtain ⟨t0, ht0, htpre⟩ := (hp0 s0 hs0).1 hpre
    exact fun hy => inv.j5 t0 ht0 htpre (getEvt_append_no h0 hy)
  · intro s1 hs1 hpre
    rw [htrace]
    obtain ⟨t1, ht1, htpre⟩ := (hp1 s1 hs1).1 hpre
    exact fun hy => inv.j6 t1 ht1 htpre (getEvt_append_no h1 hy)
  · intro s0 hs0 hpost
    rw [htrace]
    obtain ⟨t0, ht0, htpost⟩ := (hp0 s0 hs0).2 hpost
    exact getEvt_mono (inv.j7 t0 ht0 htpost)
  · intro s1 hs1 hpost
    rw [htrace]
    obtain ⟨t1, ht1, htpost⟩ := (hp1 s1 hs1).2 hpost
    exact getEvt_mono (inv.j8 t1 ht1 htpost)
  · rw [htrace]
    exact fun hab => inv.g ⟨gotSome_append_no (fun p => h0 (some p)) hab.1,
      gotSome_append_no (fun p => h1 (some p)) hab.2⟩

/-- Invariant preservation for session 0's registration `put(ka, r)`. -/
theorem mutualInv_put0 {ka kb : String} {c c' : Config} (hne : ka ≠ kb)
    (inv : MutualInv ka kb c) {r : PeerIdentifier} {new : List Event}
    (hstore : c'.store = KeyToIdentifierStore.put c.store ka r)
    (htrace : c'.trace = c.trace ++ new)
    (h0 : ∀ res, Event.storeGet 0 kb res ∉ new)
    (h1 : ∀ res, Event.storeGet 1 ka res ∉ new)
    (hev : GetEvt 0 kb c.trace)
    (hp0 : ∀ s0', c'.sessions[0]? = some s0' → ¬ preGet s0'.phase)
    (hp1 : ∀ s1', c'.sessions[1]? = some s1' → c.sessions[1]? = some s1') :
    MutualInv ka kb c' := by
  refine ⟨?_, ?_, ?_, ?_, ?_, ?_, ?_, ?_, ?_⟩
  · rw [htrace]
    exact fun _ => getEvt_mono hev
  · rw [hstore, htrace, KeyToIdentifierStore.get_put_ne _ _ _ _ hne.symm]
    exact fun hy => getEvt_mono (inv.j2 hy)
  · rw [hstore, htrace, KeyToIdentifierStore.get_put_ne _ _ _ _ hne.symm]
    exact fun hy => inv.j3 (gotSome_append_no (fun p => h0 (some p)) hy)
  · rw [hstore]
    exact fun _ => ⟨r, KeyToIdentifierStore.get_put_self c.store ka r⟩
  · intro s0 hs0 hpre
    exact absurd hpre (hp0 s0 hs0)
  · intro s1 hs1 hpre
    rw [htrace]
    exact fun hy => inv.j6 s1 (hp1 s1 hs1) hpre (getEvt_append_no h1 hy)
  · intro s0 hs0 hpost
    rw [htrace]
    exact getEvt_mono hev
  · intro s1 hs1 hpost
    rw [htrace]
    exact getEvt_mono (inv.j8 s1 (hp1 s1 hs1) hpost)
  · rw [htrace]
    exact fun hab => inv.g ⟨gotSome_append_no (fun p => h0 (some p)) hab.1,
      gotSome_append_no (fun p => h1 (some p)) hab.2⟩

/-- Invariant preservation for session 1's registration `put(kb, r)`. -/
theorem mutualInv_put1 {ka kb : String} {c c' : Config} (hne : ka ≠ kb)
    (inv : MutualInv ka kb c) {r : PeerIdentifier} {new : List Event}
    (hstore : c'.store = KeyToIdentifierStore.put c.store kb r)
    (htrace : c'.trace = c.trace ++ new)
    (h0 : ∀ res, Event.storeGet 0 kb res ∉ new)
    (h1 : ∀ res, Event.storeGet 1 ka res ∉ new)
    (hev : GetEvt 1 ka c.trace)
    (hp1 : ∀ s1', c'.sessions[1]? = some s1' → ¬ preGet s1'.phase)
    (hp0 : ∀ s0', c'.sessions[0]? = some s0' → c.sessions[0]? = some s0') :
    MutualInv ka kb c' := by
  refine ⟨?_, ?_, ?_, ?_, ?_, ?_, ?_, ?_, ?_⟩
  · rw [hstore, htrace, KeyToIdentifierStore.get_put_ne _ _ _ _ hne]
    exact fun hy => getEvt_mono (inv.j1 hy)
  · rw [htrace]
    exact fun _ => getEvt_mono hev
  · rw [hstore]
    exact fun _ => ⟨r, KeyToIdentifierStore.get_put_self c.store kb r⟩
  · rw [hstore, htrace, KeyToIdentifierStore.get_put_ne _ _ _ _ hne]
    exact fun hy => inv.j4 (gotSome_append_no (fun p => h1 (some p)) hy)
  · intro s0 hs0 hpre
    rw [htrace]
    exact fun hy => inv.j5 s0 (hp0 s0 hs0) hpre (getEvt_append_no h0 hy)
  · intro s1 hs1 hpre
    exact absurd hpre (hp1 s1 hs1)
  · intro s0 hs0 hpost
    rw [htrace]
    exact getEvt_mono (inv.j7 s0 (hp0 s0 hs0) hpost)
  · intro s1 hs1 hpost
    rw [htrace]
    exact getEvt_mono hev
  · rw [htrace]
    exact fun hab => inv.g ⟨gotSome_append_no (fun p => h0 (some p)) hab.1,
      gotSome_append_no (fun p => h1 (some p)) hab.2⟩

/-- Invariant preservation for session 0's role-resolution `get` that found the
key absent (Initiator branch). -/
theorem mutualInv_get0_none {ka kb : String} {c c' : Config} (inv : MutualInv ka kb c)
    (hstore : c'.store = c.store)
    (htrace : c'.trace = c.trace ++ [Event.storeGet 0 kb none])
    (hp0 : ∀ s0', c'.sessions[0]? = some s0' → ¬ preGet s0'.phase)
    (hp1 : ∀ s1', c'.sessions[1]? = some s1' → c.sessions[1]? = some s1') :
    MutualInv ka kb c' := by
  have h1 : ∀ res, Event.storeGet 1 ka res ∉ [Event.storeGet 0 kb none] := by simp
  have h0s : ∀ p, Event.storeGet 0 kb (some p) ∉ [Event.storeGet 0 kb none] := by simp
  refine ⟨?_, ?_, ?_, ?_, ?_, ?_, ?_, ?_, ?_⟩
  · rw [hstore, htrace]
    exact fun hy => getEvt_mono (inv.j1 hy)
  · rw [hstore, htrace]
    exact fun hy => getEvt_mono (inv.j2 hy)
  · rw [hstore, htrace]
    exact fun hy => inv.j3 (gotSome_append_no h0s hy)
  · rw [hstore, htrace]
    exact fun hy => inv.j4 (gotSome_append_no (fun p => h1 (some p)) hy)
  · intro s0 hs0 hpre
    exact absurd hpre (hp0 s0 hs0)
  · intro s1 hs1 hpre
    rw [htrace]
    exact fun hy => inv.j6 s1 (hp1 s1 hs1) hpre (getEvt_append_no h1 hy)
  · intro s0 hs0 hpost
    rw [htrace]
    exact ⟨none, List.mem_append_right _ (by simp)⟩
  · intro s1 hs1 hpost
    rw [htrace]
    exact getEvt_mono (inv.j8 s1 (hp1 s1 hs1) hpost)
  · rw [htrace]
    exact fun hab => inv.g ⟨gotSome_append_no h0s hab.1,
      gotSome_append_no (fun p => h1 (some p)) hab.2⟩

/-- Invariant preservation for session 1's role-resolution `get` that found the
key absent (Initiator branch). -/
theorem mutualInv_get1_none {ka kb : String} {c c' : Config} (inv : MutualInv ka kb c)
    (hstore : c'.store = c.store)
    (htrace : c'.trace = c.trace ++ [Event.storeGet 1 ka none])
    (hp1 : ∀ s1', c'.sessions[1]? = some s1' → ¬ preGet s1'.phase)
    (hp0 : ∀ s0', c'.sessions[0]? = some s0' → c.sessions[0]? = some s0') :
    MutualInv ka kb c' := by
  have h0 : ∀ res, Event.storeGet 0 kb res ∉ [Event.storeGet 1 ka none] := by simp
  have h1s : ∀ p, Event.storeGet 1 ka (some p) ∉ [Event.storeGet 1 ka none] := by simp
  refine ⟨?_, ?_, ?_, ?_, ?_, ?_, ?_, ?_, ?_⟩
  · rw [hstore, htrace]
    exact fun hy => getEvt_mono (inv.j1 hy)
  · rw [hstore, htrace]
    exact fun hy => getEvt_mono (inv.j2 hy)
  · rw [hstore, htrace]
    exact fun hy => inv.j3 (gotSome_append_no (fun p => h0 (some p)) hy)
  · rw [hstore, htrace]
    exact fun hy => inv.j4 (gotSome_append_no h1s hy)
  · intro s0 hs0 hpre
    rw [htrace]
    exact fun hy => inv.j5 s0 (hp0 s0 hs0) hpre (getEvt_append_no h0 hy)
  · intro s1 hs1 hpre
    exact absurd hpre (hp1 s1 hs1)
  · intro s0 hs0 hpost
    rw [htrace]
    exact getEvt_mono (inv.j7 s0 (hp0 s0 hs0) hpost)
  · intro s1 hs1 hpost
    rw [htrace]
    exact ⟨none, List.mem_append_right _ (by simp)⟩
  · rw [htrace]
    exact fun hab => inv.g ⟨gotSome_append_no (fun p => h0 (some p)) hab.1,
      gotSome_append_no h1s hab.2⟩

/-- Invariant preservation for session 0's role-resolution `get` that found the
key present (session 0 takes the Responder branch): this requires session 0 to
have been at role resolution, and shows session 1 cannot also have taken the
Responder branch. -/
theorem mutualInv_get0_some {ka kb : String} {c c' : Config} (inv : MutualInv ka kb c)
    {p : PeerIdentifier} {t0 : Session}
    (hstore : c'.store = c.store)
    (htrace : c'.trace = c.trace ++ [Event.storeGet 0 kb (some p)])
    (hg : KeyToIdentifierStore.get c.store kb = some p)
    (ht0 : c.sessions[0]? = some t0) (ht0p : preGet t0.phase)
    (hp0 : ∀ s0', c'.sessions[0]? = some s0' → ¬ preGet s0'.phase)
    (hp1 : ∀ s1', c'.sessions[1]? = some s1' → c.sessions[1]? = some s1') :
    MutualInv ka kb c' := by
  have h1 : ∀ res, Event.storeGet 1 ka res ∉ [Event.storeGet 0 kb (some p)] := by simp
  refine ⟨?_, ?_, ?_, ?_, ?_, ?_, ?_, ?_, ?_⟩
  · rw [hstore, htrace]
    exact fun hy => getEvt_mono (inv.j1 hy)
  · rw [hstore, htrace]
    exact fun hy => getEvt_mono (inv.j2 hy)
  · rw [hstore]
    exact fun _ => ⟨p, hg⟩
  · rw [hstore, htrace]
    exact fun hy => inv.j4 (gotSome_append_no (fun q => h1 (some q)) hy)
  · intro s0 hs0 hpre
    exact absurd hpre (hp0 s0 hs0)
  · intro s1 hs1 hpre
    rw [htrace]
    exact fun hy => inv.j6 s1 (hp1 s1 hs1) hpre (getEvt_append_no h1 hy)
  · intro s0 hs0 hpost
    rw [htrace]
    exact ⟨some p, List.mem_append_right _ (by simp)⟩
  · intro s1 hs1 hpost
    rw [htrace]
    exact getEvt_mono (inv.j8 s1 (hp1 s1 hs1) hpost)
  · rw [htrace]
    rintro ⟨-, hB⟩
    have hBold : GotSome 1 ka c.trace := gotSome_append_no (fun q => h1 (some q)) hB
    obtain ⟨r, hr⟩ := inv.j4 hBold
    exact inv.j5 t0 ht0 ht0p (inv.j1 ⟨r, hr⟩)

/-- Invariant preservation for session 1's role-resolution `get` that found the
key present (session 1 takes the Responder branch): session 0 cannot also have
taken the Responder branch. -/
theorem mutualInv_get1_some {ka kb : String} {c c' : Config} (inv : MutualInv ka kb c)
    {p : PeerIdentifier} {t1 : Session}
    (hstore : c'.store = c.store)
    (htrace : c'.trace = c.trace ++ [Event.storeGet 1 ka (some p)])
    (hg : KeyToIdentifierStore.get c.store ka = some p)
    (ht1 : c.sessions[1]? = some t1) (ht1p : preGet t1.phase)
    (hp1 : ∀ s1', c'.sessions[1]? = some s1' → ¬ preGet s1'.phase)
    (hp0 : ∀ s0', c'.sessions[0]? = some s0' → c.sessions[0]? = some s0') :
    MutualInv ka kb c' := by
  have h0 : ∀ res, Event.storeGet 0 kb res ∉ [Event.storeGet 1 ka (some p)] := by simp
  refine ⟨?_, ?_, ?_, ?_, ?_, ?_, ?_, ?_, ?_⟩
  · rw [hstore, htrace]
    exact fun hy => getEvt_mono (inv.j1 hy)
  · rw [hstore, htrace]
    exact fun hy => getEvt_mono (inv.j2 hy)
  · rw [hstore, htrace]
    exact fun hy => inv.j3 (gotSome_append_no (fun q => h0 (some q)) hy)
  · rw [hstore]
    exact fun _ => ⟨p, hg⟩
  · intro s0 hs0 hpre
    rw [htrace]
    exact fun hy => inv.j5 s0 (hp0 s0 hs0) hpre (getEvt_append_no h0 hy)
  · intro s1 hs1 hpre
    exact absurd hpre (hp1 s1 hs1)
  · intro s0 hs0 hpost
    rw [htrace]
    exact getEvt_mono (inv.j7 s0 (hp0 s0 hs0) hpost)
  · intro s1 hs1 hpost
    rw [htrace]
    exact ⟨some p, List.mem_append_right _ (by simp)⟩
  · rw [htrace]
    rintro ⟨hA, -⟩
    have hAold : GotSome 0 kb c.trace := gotSome_append_no (fun q => h0 (some q)) hA
    obtain ⟨r, hr⟩ := inv.j3 hAold
    exact inv.j6 t1 ht1 ht1p (inv.j2 ⟨r, hr⟩)

/-- The mutual-pair invariant holds in every configuration reachable from two
fresh mutually-referencing sessions. -/
theorem mutualInv_reach (rv vA vB : Nat) (ka kb rA rB : String) (aA aB : SocketAddress)
    (hne : ka ≠ kb) {c : Config}
    (h : Reach (pairInit rv vA vB ka kb rA rB aA aB) c) : MutualInv ka kb c := by
  induction h with
  | refl =>
    refine ⟨?_, ?_, ?_, ?_, ?_, ?_, ?_, ?_, ?_⟩ <;>
      simp [pairInit, GetEvt, GotSome, KeyToIdentifierStore.get, preGet, postGet]
  | tail hr hstep ih =>
    obtain ⟨act, ha⟩ := hstep
    obtain ⟨s0b, hs0b, hadv0, -, -⟩ :=
      reach_session_fields hr 0
        (show (pairInit rv vA vB ka kb rA rB aA aB).sessions[0]? =
          some ⟨⟨vA, ka, kb⟩, rA, aA, Phase.start⟩ from rfl)
    obtain ⟨s1b, hs1b, hadv1, -, -⟩ :=
      reach_session_fields hr 1
        (show (pairInit rv vA vB ka kb rA rB aA aB).sessions[1]? =
          some ⟨⟨vB, kb, ka⟩, rB, aB, Phase.start⟩ from rfl)
    cases act with
    | timeout j =>
      obtain ⟨s, ph, hs, hto, rfl⟩ := exec_timeout_inv ha
      obtain ⟨-, -, hphd⟩ := sessionTimeout_inv hto
      subst hphd
      refine mutualInv_silent ih rfl ((List.append_nil _).symm) (by simp) (by simp) ?_ ?_
      · intro s0' hs0'
        by_cases hj : j = 0
        · subst hj
          have he2 : s0' = { s with phase := Phase.done } :=
            Option.some.inj (hs0'.symm.trans (getElem?_set_of_some _ hs))
          subst he2
          exact ⟨fun hpre => absurd hpre (by simp [preGet]),
                 fun hpost => absurd hpost (by simp [postGet])⟩
        · rw [List.getElem?_set_ne hj] at hs0'
          exact ⟨fun hpre => ⟨s0', hs0', hpre⟩, fun hpost => ⟨s0', hs0', hpost⟩⟩
      · intro s1' hs1'
        by_cases hj : j = 1
        · subst hj
          have he2 : s1' = { s with phase := Phase.done } :=
            Option.some.inj (hs1'.symm.trans (getElem?_set_of_some _ hs))
          subst he2
          exact ⟨fun hpre => absurd hpre (by simp [preGet]),
                 fun hpost => absurd hpost (by simp [postGet])⟩
        · rw [List.getElem?_set_ne hj] at hs1'
          exact ⟨fun hpre => ⟨s1', hs1', hpre⟩, fun hpost => ⟨s1', hs1', hpost⟩⟩
    | step j =>
      obtain ⟨s, o, hs, ho, rfl⟩ := exec_step_inv ha
      have hjlt : j < 2 := by
        have h1 := (List.getElem?_eq_some.mp hs).1
        have h2 := reach_sessions_length hr
        simp only [pairInit, List.length_cons, List.length_nil] at h2
        omega
      interval_cases j
      · have he : s0b = s := Option.some.inj (hs0b.symm.trans hs)
        subst he
        have htheir : s0b.advertise.their_key = kb := by rw [hadv0]
        have hour : s0b.advertise.our_key = ka := by rw [hadv0]
        rcases sessionStep_cases ho with
            ⟨hp2, -, rfl⟩ | ⟨hp2, -, -, rfl⟩ | ⟨hp2, -, -, -, rfl⟩ | ⟨hp2, -, -, -, rfl⟩ |
            ⟨hp2, -, rfl⟩ | ⟨hp2, -, rfl⟩ | ⟨hp2, hg, rfl⟩ | ⟨p, hp2, hg, rfl⟩ | ⟨hp2, rfl⟩ |
            ⟨p, hp2, hg, rfl⟩ | ⟨p, hp2, hpm, rfl⟩ | ⟨hp2, rfl⟩ | ⟨hp2, rfl⟩
        · dsimp only
          refine mutualInv_silent ih rfl rfl (by simp) (by simp) ?_ ?_
          · intro s0' hs0'
            have he2 : s0' = { s0b with phase := Phase.done } :=
              Option.some.inj (hs0'.symm.trans (getElem?_set_of_some _ hs))
            subst he2
            exact ⟨fun hpre => absurd hpre (by simp [preGet]),
                   fun hpost => absurd hpost (by simp [postGet])⟩
          · intro s1' hs1'
            rw [List.getElem?_set_ne (by decide)] at hs1'
            exact ⟨fun hpre => ⟨s1', hs1', hpre⟩, fun hpost => ⟨s1', hs1', hpost⟩⟩
        · dsimp only
          refine mutualInv_silent ih rfl rfl (by simp) (by simp) ?_ ?_
          · intro s0' hs0'
            have he2 : s0' = { s0b with phase := Phase.done } :=
              Option.some.inj (hs0'.symm.trans (getElem?_set_of_some _ hs))
            subst he2
            exact ⟨fun hpre => absurd hpre (by simp [preGet]),
                   fun hpost => absurd hpost (by simp [postGet])⟩
          · intro s1' hs1'
            rw [List.getElem?_set_ne (by decide)] at hs1'
            exact ⟨fun hpre => ⟨s1', hs1', hpre⟩, fun hpost => ⟨s1', hs1', hpost⟩⟩
        · dsimp only
          refine mutualInv_silent ih rfl rfl (by simp) (by simp) ?_ ?_
          · intro s0' hs0'
            have he2 : s0' = { s0b with phase := Phase.done } :=
              Option.some.inj (hs0'.symm.trans (getElem?_set_of_some _ hs))
            subst he2
            exact ⟨fun hpre => absurd hpre (by simp [preGet]),
                   fun hpost => absurd hpost (by simp [postGet])⟩
          · intro s1' hs1'
            rw [List.getElem?_set_ne (by decide)] at hs1'
            exact ⟨fun hpre => ⟨s1', hs1', hpre⟩, fun hpost => ⟨s1', hs1', hpost⟩⟩
        · dsimp only
          refine mutualInv_silent ih rfl rfl (by simp) (by simp) ?_ ?_
          · intro s0' hs0'
            have he2 : s0' = { s0b with phase := Phase.sentChallenge } :=
              Option.some.inj (hs0'.symm.trans (getElem?_set_of_some _ hs))
            subst he2
            exact ⟨fun _ => ⟨s0b, hs, by rw [hp2]; trivial⟩,
                   fun hpost => absurd hpost (by simp [postGet])⟩
          · intro s1' hs1'
            rw [List.getElem?_set_ne (by decide)] at hs1'
            exact ⟨fun hpre => ⟨s1', hs1', hpre⟩, fun hpost => ⟨s1', hs1', hpost⟩⟩
        · dsimp only
          refine mutualInv_silent ih rfl rfl (by simp) (by simp) ?_ ?_
          · intro s0' hs0'
            have he2 : s0' = { s0b with phase := Phase.done } :=
              Option.some.inj (hs0'.symm.trans (getElem?_set_of_some _ hs))
            subst he2
            exact ⟨fun hpre => absurd hpre (by simp [preGet]),
                   fun hpost => absurd hpost (by simp [postGet])⟩
          · intro s1' hs1'
            rw [List.getElem?_set_ne (by decide)] at hs1'
            exact ⟨fun hpre => ⟨s1', hs1', hpre⟩, fun hpost => ⟨s1', hs1', hpost⟩⟩
        · dsimp only
          refine mutualInv_silent ih rfl rfl (by simp) (by simp) ?_ ?_
          · intro s0' hs0'
            have he2 : s0' = { s0b with phase := Phase.atRole } :=
              Option.some.inj (hs0'.symm.trans (getElem?_set_of_some _ hs))
            subst he2
            exact ⟨fun _ => ⟨s0b, hs, by rw [hp2]; trivial⟩,
                   fun hpost => absurd hpost (by simp [postGet])⟩
          · intro s1' hs1'
            rw [List.getElem?_set_ne (by decide)] at hs1'
            exact ⟨fun hpre => ⟨s1', hs1', hpre⟩, fun hpost => ⟨s1', hs1', hpost⟩⟩
        · dsimp only
          refine mutualInv_get0_none ih rfl (by rw [htheir]) ?_ ?_
          · intro s0' hs0'
            have he2 : s0' = { s0b with phase := Phase.gotAbsent } :=
              Option.some.inj (hs0'.symm.trans (getElem?_set_of_some _ hs))
            subst he2
            simp [preGet]
          · intro s1' hs1'
            rw [List.getElem?_set_ne (by decide)] at hs1'
            exact hs1'
        · dsimp only
          refine mutualInv_get0_some ih rfl (by rw [htheir]) ?_ hs (by rw [hp2]; trivial) ?_ ?_
          · rw [← htheir]
            exact hg
          · intro s0' hs0'
            have he2 : s0' = { s0b with phase := Phase.asResponder } :=
              Option.some.inj (hs0'.symm.trans (getElem?_set_of_some _ hs))
            subst he2
            simp [preGet]
          · intro s1' hs1'
            rw [List.getElem?_set_ne (by decide)] at hs1'
            exact hs1'
        · dsimp only
          refine mutualInv_put0 hne ih (by rw [hour]) rfl (by simp) (by simp) ?_ ?_ ?_
          · exact ih.j7 s0b hs (by rw [hp2]; trivial)
          · intro s0' hs0'
            have he2 : s0' = { s0b with phase := Phase.awaiting } :=
              Option.some.inj (hs0'.symm.trans (getElem?_set_of_some _ hs))
            subst he2
            simp [preGet]
          · intro s1' hs1'
            rw [List.getElem?_set_ne (by decide)] at hs1'
            exact hs1'
        · dsimp only
          refine mutualInv_silent ih rfl rfl (by simp) (by simp) ?_ ?_
          · intro s0' hs0'
            have he2 : s0' = { s0b with phase := Phase.waitingDisconnect p } :=
              Option.some.inj (hs0'.symm.trans (getElem?_set_of_some _ hs))
            subst he2
            exact ⟨fun hpre => absurd hpre (by simp [preGet]),
                   fun _ => ⟨s0b, hs, by rw [hp2]; trivial⟩⟩
          · intro s1' hs1'
            rw [List.getElem?_set_ne (by decide)] at hs1'
            exact ⟨fun hpre => ⟨s1', hs1', hpre⟩, fun hpost => ⟨s1', hs1', hpost⟩⟩
        · dsimp only
          refine mutualInv_silent ih rfl rfl (by simp) (by simp) ?_ ?_
          · intro s0' hs0'
            have he2 : s0' = { s0b with phase := Phase.done } :=
              Option.some.inj (hs0'.symm.trans (getElem?_set_of_some _ hs))
            subst he2
            exact ⟨fun hpre => absurd hpre (by simp [preGet]),
                   fun hpost => absurd hpost (by simp [postGet])⟩
          · intro s1' hs1'
            rw [List.getElem?_set_ne (by decide)] at hs1'
            exact ⟨fun hpre => ⟨s1', hs1', hpre⟩, fun hpost => ⟨s1', hs1', hpost⟩⟩
        · dsimp only
          refine mutualInv_put0 hne ih (by rw [hour]) rfl (by simp) (by simp) ?_ ?_ ?_
          · exact ih.j7 s0b hs (by rw [hp2]; trivial)
          · intro s0' hs0'
            have he2 : s0' = { s0b with phase := Phase.respReady } :=
              Option.some.inj (hs0'.symm.trans (getElem?_set_of_some _ hs))
            subst he2
            simp [preGet]
          · intro s1' hs1'
            rw [List.getElem?_set_ne (by decide)] at hs1'
            exact hs1'
        · dsimp only
          refine mutualInv_silent ih rfl rfl (by simp) (by simp) ?_ ?_
          · intro s0' hs0'
            have he2 : s0' = { s0b with phase := Phase.done } :=
              Option.some.inj (hs0'.symm.trans (getElem?_set_of_some _ hs))
            subst he2
            exact ⟨fun hpre => absurd hpre (by simp [preGet]),
                   fun hpost => absurd hpost (by simp [postGet])⟩
          · intro s1' hs1'
            rw [List.getElem?_set_ne (by decide)] at hs1'
            exact ⟨fun hpre => ⟨s1', hs1', hpre⟩, fun hpost => ⟨s1', hs1', hpost⟩⟩
      · have he : s1b = s := Option.some.inj (hs1b.symm.trans hs)
        subst he
        have htheir : s1b.advertise.their_key = ka := by rw [hadv1]
        have hour : s1b.advertise.our_key = kb := by rw [hadv1]
        rcases sessionStep_cases ho with
            ⟨hp2, -, rfl⟩ | ⟨hp2, -, -, rfl⟩ | ⟨hp2, -, -, -, rfl⟩ | ⟨hp2, -, -, -, rfl⟩ |
            ⟨hp2, -, rfl⟩ | ⟨hp2, -, rfl⟩ | ⟨hp2, hg, rfl⟩ | ⟨p, hp2, hg, rfl⟩ | ⟨hp2, rfl⟩ |
            ⟨p, hp2, hg, rfl⟩ | ⟨p, hp2, hpm, rfl⟩ | ⟨hp2, rfl⟩ | ⟨hp2, rfl⟩
        · dsimp only
          refine mutualInv_silent ih rfl rfl (by simp) (by simp) ?_ ?_
          · intro s0' hs0'
            rw [List.getElem?_set_ne (by decide)] at hs0'
            exact ⟨fun hpre => ⟨s0', hs0', hpre⟩, fun hpost => ⟨s0', hs0', hpost⟩⟩
          · intro s1' hs1'
            have he2 : s1' = { s1b with phase := Phase.done } :=
              Option.some.inj (hs1'.symm.trans (getElem?_set_of_some _ hs))
            subst he2
            exact ⟨fun hpre => absurd hpre (by simp [preGet]),
                   fun hpost => absurd hpost (by simp [postGet])⟩
        · dsimp only
          refine mutualInv_silent ih rfl rfl (by simp) (by simp) ?_ ?_
          · intro s0' hs0'
            rw [List.getElem?_set_ne (by decide)] at hs0'
            exact ⟨fun hpre => ⟨s0', hs0', hpre⟩, fun hpost => ⟨s0', hs0', hpost⟩⟩
          · intro s1' hs1'
            have he2 : s1' = { s1b with phase := Phase.done } :=
              Option.some.inj (hs1'.symm.trans (getElem?_set_of_some _ hs))
            subst he2
            exact ⟨fun hpre => absurd hpre (by simp [preGet]),
                   fun hpost => absurd hpost (by simp [postGet])⟩
        · dsimp only
          refine mutualInv_silent ih rfl rfl (by simp) (by simp) ?_ ?_
          · intro s0' hs0'
            rw [List.getElem?_set_ne (by decide)] at hs0'
            exact ⟨fun hpre => ⟨s0', hs0', hpre⟩, fun hpost => ⟨s0', hs0', hpost⟩⟩
          · intro s1' hs1'
            have he2 : s1' = { s1b with phase := Phase.done } :=
              Option.some.inj (hs1'.symm.trans (getElem?_set_of_some _ hs))
            subst he2
            exact ⟨fun hpre => absurd hpre (by simp [preGet]),
                   fun hpost => absurd hpost (by simp [postGet])⟩
        · dsimp only
          refine mutualInv_silent ih rfl rfl (by simp) (by simp) ?_ ?_
          · intro s0' hs0'
            rw [List.getElem?_set_ne (by decide)] at hs0'
            exact ⟨fun hpre => ⟨s0', hs0', hpre⟩, fun hpost => ⟨s0', hs0', hpost⟩⟩
          · intro s1' hs1'
            have he2 : s1' = { s1b with phase := Phase.sentChallenge } :=
              Option.some.inj (hs1'.symm.trans (getElem?_set_of_some _ hs))
            subst he2
            exact ⟨fun _ => ⟨s1b, hs, by rw [hp2]; trivial⟩,
                   fun hpost => absurd hpost (by simp [postGet])⟩
        · dsimp only
          refine mutualInv_silent ih rfl rfl (by simp) (by simp) ?_ ?_
          · intro s0' hs0'
            rw [List.getElem?_set_ne (by decide)] at hs0'
            exact ⟨fun hpre => ⟨s0', hs0', hpre⟩, fun hpost => ⟨s0', hs0', hpost⟩⟩
          · intro s1' hs1'
            have he2 : s1' = { s1b with phase := Phase.done } :=
              Option.some.inj (hs1'.symm.trans (getElem?_set_of_some _ hs))
            subst he2
            exact ⟨fun hpre => absurd hpre (by simp [preGet]),
                   fun hpost => absurd hpost (by simp [postGet])⟩
        · dsimp only
          refine mutualInv_silent ih rfl rfl (by simp) (by simp) ?_ ?_
          · intro s0' hs0'
            rw [List.getElem?_set_ne (by decide)] at hs0'
            exact ⟨fun hpre => ⟨s0', hs0', hpre⟩, fun hpost => ⟨s0', hs0', hpost⟩⟩
          · intro s1' hs1'
            have he2 : s1' = { s1b with phase := Phase.atRole } :=
              Option.some.inj (hs1'.symm.trans (getElem?_set_of_some _ hs))
            subst he2
            exact ⟨fun _ => ⟨s1b, hs, by rw [hp2]; trivial⟩,
                   fun hpost => absurd hpost (by simp [postGet])⟩
        · dsimp only
          refine mutualInv_get1_none ih rfl (by rw [htheir]) ?_ ?_
          · intro s1' hs1'
            have he2 : s1' = { s1b with phase := Phase.gotAbsent } :=
              Option.some.inj (hs1'.symm.trans (getElem?_set_of_some _ hs))
            subst he2
            simp [preGet]
          · intro s0' hs0'
            rw [List.getElem?_set_ne (by decide)] at hs0'
            exact hs0'
        · dsimp only
          refine mutualInv_get1_some ih rfl (by rw [htheir]) ?_ hs (by rw [hp2]; trivial) ?_ ?_
          · rw [← htheir]
            exact hg
          · intro s1' hs1'
            have he2 : s1' = { s1b with phase := Phase.asResponder } :=
              Option.some.inj (hs1'.symm.trans (getElem?_set_of_some _ hs))
            subst he2
            simp [preGet]
          · intro s0' hs0'
            rw [List.getElem?_set_ne (by decide)] at hs0'
            exact hs0'
        · dsimp only
          refine mutualInv_put1 hne ih (by rw [hour]) rfl (by simp) (by simp) ?_ ?_ ?_
          · exact ih.j8 s1b hs (by rw [hp2]; trivial)
          · intro s1' hs1'
            have he2 : s1' = { s1b with phase := Phase.awaiting } :=
              Option.some.inj (hs1'.symm.trans (getElem?_set_of_some _ hs))
            subst he2
            simp [preGet]
          · intro s0' hs0'
            rw [List.getElem?_set_ne (by decide)] at hs0'
            exact hs0'
        · dsimp only
          refine mutualInv_silent ih rfl rfl (by simp) (by simp) ?_ ?_
          · intro s0' hs0'
            rw [List.getElem?_set_ne (by decide)] at hs0'
            exact ⟨fun hpre => ⟨s0', hs0', hpre⟩, fun hpost => ⟨s0', hs0', hpost⟩⟩
          · intro s1' hs1'
            have he2 : s1' = { s1b with phase := Phase.waitingDisconnect p } :=
              Option.some.inj (hs1'.symm.trans (getElem?_set_of_some _ hs))
            subst he2
            exact ⟨fun hpre => absurd hpre (by simp [preGet]),
                   fun _ => ⟨s1b, hs, by rw [hp2]; trivial⟩⟩
        · dsimp only
          refine mutualInv_silent ih rfl rfl (by simp) (by simp) ?_ ?_
          · intro s0' hs0'
            rw [List.getElem?_set_ne (by decide)] at hs0'
            exact ⟨fun hpre => ⟨s0', hs0', hpre⟩, fun hpost => ⟨s0', hs0', hpost⟩⟩
          · intro s1' hs1'
            have he2 : s1' = { s1b with phase := Phase.done } :=
              Option.some.inj (hs1'.symm.trans (getElem?_set_of_some _ hs))
            subst he2
            exact ⟨fun hpre => absurd hpre (by simp [preGet]),
                   fun hpost => absurd hpost (by simp [postGet])⟩
        · dsimp only
          refine mutualInv_put1 hne ih (by rw [hour]) rfl (by simp) (by simp) ?_ ?_ ?_
          · exact ih.j8 s1b hs (by rw [hp2]; trivial)
          · intro s1' hs1'
            have he2 : s1' = { s1b with phase := Phase.respReady } :=
              Option.some.inj (hs1'.symm.trans (getElem?_set_of_some _ hs))
            subst he2
            simp [preGet]
          · intro s0' hs0'
            rw [List.getElem?_set_ne (by decide)] at hs0'
            exact hs0'
        · dsimp only
          refine mutualInv_silent ih rfl rfl (by simp) (by simp) ?_ ?_
          · intro s0' hs0'
            rw [List.getElem?_set_ne (by decide)] at hs0'
            exact ⟨fun hpre => ⟨s0', hs0', hpre⟩, fun hpost => ⟨s0', hs0', hpost⟩⟩
          · intro s1' hs1'
            have he2 : s1' = { s1b with phase := Phase.done } :=
              Option.some.inj (hs1'.symm.trans (getElem?_set_of_some _ hs))
            subst he2
            exact ⟨fun hpre => absurd hpre (by simp [preGet]),
                   fun hpost => absurd hpost (by simp [postGet])⟩

/-- C3 (amended): for two sessions that mutually reference each other, at most
one ever takes the Responder branch of role resolution — in no interleaving do
both `get` calls find a record — and which session becomes Responder is
determined by arrival order at the Identifier Store (whether the counterpart's
registration precedes the lookup), never by message content.  Because the `get`
and the subsequent `put` are separate, non-atomic store operations, interleavings
exist in which both sessions take the Initiator branch and neither becomes
Responder, so "exactly one of each" does not hold under every interleaving. -/
theorem at_most_one_responder (rv vA vB : Nat) (ka kb rA rB : String)
    (aA aB : SocketAddress) (hne : ka ≠ kb) {c : Config}
    (h : Reach (pairInit rv vA vB ka kb rA rB aA aB) c) :
    ¬((∃ p, Event.storeGet 0 kb (some p) ∈ c.trace) ∧
      (∃ p, Event.storeGet 1 ka (some p) ∈ c.trace)) :=
  (mutualInv_reach rv vA vB ka kb rA rB aA aB hne h).g

/-- Witness for the amended C3 at the canonical concrete run. -/
theorem at_most_one_responder_witness :
    ¬((∃ p, Event.storeGet 0 "kb" (some p) ∈ pairFinal.trace) ∧
      (∃ p, Event.storeGet 1 "ka" (some p) ∈ pairFinal.trace)) :=
  at_most_one_responder 1 1 1 "ka" "kb" "ra" "rb" ⟨"h1", 10⟩ ⟨"h2", 20⟩ (by decide)
    (@run_reach pairInitC pairFinal canonicalSchedule (by decide))

/-- Counterexample to C3 as stated: under the interleaving in which both
sessions run their role-resolution `get` before either runs its `put`, both
`get`s find the key absent, so both sessions take the Initiator branch and
neither takes the Responder branch — "exactly one of each under every
interleaving" is false on the code's non-atomic `get`-then-`put`. -/
theorem both_initiator_interleaving_counterexample :
    run pairInitC raceSched = some raceFinal ∧
    Event.storeGet 0 "kb" none ∈ raceFinal.trace ∧
    Event.storeGet 1 "ka" none ∈ raceFinal.trace ∧
    (∀ p, Event.storeGet 0 "kb" (some p) ∉ raceFinal.trace) ∧
    (∀ p, Event.storeGet 1 "ka" (some p) ∉ raceFinal.trace) := by
  have htr : raceFinal.trace =
      [Event.recv 0 (Message.advertise ⟨1, "ka", "kb"⟩),
       Event.send 0 (Message.advertiseChallenge ⟨"1337", "ka"⟩),
       Event.recv 0 (Message.advertiseResponse "ra"),
       Event.storeGet 0 "kb" none,
       Event.recv 1 (Message.advertise ⟨1, "kb", "ka"⟩),
       Event.send 1 (Message.advertiseChallenge ⟨"1337", "kb"⟩),
       Event.recv 1 (Message.advertiseResponse "rb"),
       Event.storeGet 1 "ka" none,
       Event.storePut 0 "ka" ⟨⟨"h1", 10⟩, 1⟩,
       Event.storePut 1 "kb" ⟨⟨"h2", 20⟩, 1⟩] := by decide
  refine ⟨by decide, by decide, by decide, fun p hmem => ?_, fun p hmem => ?_⟩
  · rw [htr] at hmem
    simp at hmem
  · rw [htr] at hmem
    simp at hmem

/-! ## C8: the AdvertiseResponse payload does not influence the handler -/

/-- Observable actions: everything except the receipt of the `AdvertiseResponse`
payload itself — messages sent, identifier-store operations, barrier operations,
and the other receives. -/
def isObservable : Event → Bool
  | Event.recv _ (Message.advertiseResponse _) => false
  | _ => true

/-- The observable projection of a trace. -/
def observables (tr : List Event) : List Event := tr.filter isObservable

theorem observables_append (t u : List Event) :
    observables (t ++ u) = observables t ++ observables u :=
  List.filter_append t u

/-- Two configurations that agree everywhere except possibly in the
`AdvertiseResponse` payload session `i` will receive: same mediator parameters,
same shared stores, the same observable trace, identical sessions elsewhere, and
session `i` differing at most in its `response` field. -/
def Related (i : Nat) (c1 c2 : Config) : Prop :=
  c1.required_version = c2.required_version ∧
  c1.quit_after = c2.quit_after ∧
  c1.store = c2.store ∧
  c1.completed = c2.completed ∧
  observables c1.trace = observables c2.trace ∧
  c1.sessions.length = c2.sessions.length ∧
  (∀ j, j ≠ i → c1.sessions[j]? = c2.sessions[j]?) ∧
  (∀ s1 s2, c1.sessions[i]? = some s1 → c2.sessions[i]? = some s2 →
    s1.advertise = s2.advertise ∧ s1.address = s2.address ∧ s1.phase = s2.phase)

/-- The handler block never inspects the `AdvertiseResponse` payload: running one
block on two sessions that differ only in their response yields the same
blocking behaviour, phase, store and completed set, and observably equal
events. -/
theorem sessionStep_response_indep (rv1 rv2 : Nat) (qa1 qa2 : Option MessageType)
    (store1 store2 : Store) (completed1 completed2 : Completed) (i : Nat)
    (adv : Advertise) (r1 r2 : String) (addr : SocketAddress) (ph : Phase)
    (hrv : rv1 = rv2) (hqa : qa1 = qa2) (hst : store1 = store2)
    (hcp : completed1 = completed2) :
    (sessionStep rv1 qa1 store1 completed1 i ⟨adv, r1, addr, ph⟩ = none ∧
     sessionStep rv2 qa2 store2 completed2 i ⟨adv, r2, addr, ph⟩ = none) ∨
    (∃ o1 o2,
      sessionStep rv1 qa1 store1 completed1 i ⟨adv, r1, addr, ph⟩ = some o1 ∧
      sessionStep rv2 qa2 store2 completed2 i ⟨adv, r2, addr, ph⟩ = some o2 ∧
      o1.phase = o2.phase ∧ o1.store = o2.store ∧ o1.completed = o2.completed ∧
      observables o1.events = observables o2.events) := by
  subst hrv
  subst hqa
  subst hst
  subst hcp
  cases ph
  case start =>
    simp only [sessionStep]
    split_ifs <;> (right; exact ⟨_, _, rfl, rfl, rfl, rfl, rfl, rfl⟩)
  case sentChallenge =>
    simp only [sessionStep]
    split_ifs with h1
    · right
      refine ⟨_, _, rfl, rfl, rfl, rfl, rfl, ?_⟩
      simp [observables, isObservable]
    · right
      refine ⟨_, _, rfl, rfl, rfl, rfl, rfl, ?_⟩
      simp [observables, isObservable]
  case atRole =>
    cases hget : KeyToIdentifierStore.get store1 adv.their_key with
    | none =>
      right
      simp only [sessionStep, hget]
      exact ⟨_, _, rfl, rfl, rfl, rfl, rfl, rfl⟩
    | some p =>
      right
      simp only [sessionStep, hget]
      exact ⟨_, _, rfl, rfl, rfl, rfl, rfl, rfl⟩
  case gotAbsent =>
    right
    simp only [sessionStep]
    exact ⟨_, _, rfl, rfl, rfl, rfl, rfl, rfl⟩
  case awaiting =>
    cases hget : KeyToIdentifierStore.get store1 adv.their_key with
    | none =>
      left
      simp only [sessionStep, hget]
      exact ⟨trivial, trivial⟩
    | some p =>
      right
      simp only [sessionStep, hget]
      exact ⟨_, _, rfl, rfl, rfl, rfl, rfl, rfl⟩
  case waitingDisconnect p =>
    simp only [sessionStep]
    split_ifs with h1
    · right
      exact ⟨_, _, rfl, rfl, rfl, rfl, rfl, rfl⟩
    · left
      exact ⟨rfl, rfl⟩
  case asResponder =>
    right
    simp only [sessionStep]
    exact ⟨_, _, rfl, rfl, rfl, rfl, rfl, rfl⟩
  case respReady =>
    right
    simp only [sessionStep]
    exact ⟨_, _, rfl, rfl, rfl, rfl, rfl, rfl⟩
  case done =>
    left
    exact ⟨rfl, rfl⟩

/-- The timeout arm never inspects the response payload either. -/
theorem sessionTimeout_response_indep (st : Store) (adv : Advertise) (r1 r2 : String)
    (addr : SocketAddress) (ph : Phase) :
    sessionTimeout st ⟨adv, r1, addr, ph⟩ = sessionTimeout st ⟨adv, r2, addr, ph⟩ := by
  cases ph <;> simp [sessionTimeout]

/-- One scheduler action preserves `Related`: on related configurations any
action is enabled in one iff in the other, and the results are related again. -/
theorem exec_response_indep {i : Nat} {c1 c2 : Config} (hrel : Related i c1 c2)
    (a : Act) :
    (exec a c1 = none ∧ exec a c2 = none) ∨
    (∃ d1 d2, exec a c1 = some d1 ∧ exec a c2 = some d2 ∧ Related i d1 d2) := by
  obtain ⟨hrv, hqa, hst, hcp, hobs, hlen, hoth, hati⟩ := hrel
  cases a with
  | step j =>
    by_cases hij : j = i
    · subst hij
      cases hs1 : c1.sessions[j]? with
      | none =>
        have hs2 : c2.sessions[j]? = none := by
          rw [List.getElem?_eq_none_iff, ← hlen]
          exact List.getElem?_eq_none_iff.mp hs1
        left
        exact ⟨by simp [exec, hs1], by simp [exec, hs2]⟩
      | some s1 =>
        cases hs2 : c2.sessions[j]? with
        | none =>
          have hx := List.getElem?_eq_none_iff.mp hs2
          have hy := (List.getElem?_eq_some.mp hs1).1
          omega
        | some s2 =>
          obtain ⟨hadv, haddr, hph⟩ := hati s1 s2 hs1 hs2
          obtain ⟨a1, r1, ad1, ph1⟩ := s1
          obtain ⟨a2, r2, ad2, ph2⟩ := s2
          dsimp only at hadv haddr hph
          subst hadv
          subst haddr
          subst hph
          rcases sessionStep_response_indep c1.required_version c2.required_version
              c1.quit_after c2.quit_after c1.store c2.store c1.completed c2.completed
              j a1 r1 r2 ad1 ph1 hrv hqa hst hcp with
            ⟨h1, h2⟩ | ⟨o1, o2, h1, h2, hop, host, hocp, hoev⟩
          · left
            exact ⟨by simp [exec, hs1, h1], by simp [exec, hs2, h2]⟩
          · right
            refine ⟨{ c1 with
                sessions := c1.sessions.set j ⟨a1, r1, ad1, o1.phase⟩,
                store := o1.store, completed := o1.completed,
                trace := c1.trace ++ o1.events },
              { c2 with
                sessions := c2.sessions.set j ⟨a1, r2, ad1, o2.phase⟩,
                store := o2.store, completed := o2.completed,
                trace := c2.trace ++ o2.events },
              by simp only [exec, hs1, h1], by simp only [exec, hs2, h2],
              hrv, hqa, host, hocp, ?_, ?_, ?_, ?_⟩
            · show observables (c1.trace ++ o1.events) = observables (c2.trace ++ o2.events)
              rw [observables_append, observables_append, hobs, hoev]
            · show (c1.sessions.set j _).length = (c2.sessions.set j _).length
              rw [List.length_set, List.length_set]
              exact hlen
            · intro j' hj'
              show (c1.sessions.set j _)[j']? = (c2.sessions.set j _)[j']?
              rw [List.getElem?_set_ne (Ne.symm hj'), List.getElem?_set_ne (Ne.symm hj')]
              exact hoth j' hj'
            · intro t1 t2 ht1 ht2
              rw [getElem?_set_of_some _ hs1] at ht1
              rw [getElem?_set_of_some _ hs2] at ht2
              rw [← Option.some.inj ht1, ← Option.some.inj ht2]
              exact ⟨rfl, rfl, hop⟩
    · have hsj : c1.sessions[j]? = c2.sessions[j]? := hoth j hij
      cases hs1 : c1.sessions[j]? with
      | none =>
        have hs2 : c2.sessions[j]? = none := by rw [← hsj, hs1]
        left
        exact ⟨by simp [exec, hs1], by simp [exec, hs2]⟩
      | some s =>
        have hs2 : c2.sessions[j]? = some s := by rw [← hsj, hs1]
        have hstep2 : sessionStep c2.required_version c2.quit_after c2.store
            c2.completed j s = sessionStep c1.required_version c1.quit_after c1.store
            c1.completed j s := by
          rw [← hrv, ← hqa, ← hst, ← hcp]
        cases hsp : sessionStep c1.required_version c1.quit_after c1.store
            c1.completed j s with
        | none =>
          left
          exact ⟨by simp [exec, hs1, hsp], by simp [exec, hs2, hstep2, hsp]⟩
        | some o =>
          right
          refine ⟨{ c1 with
              sessions := c1.sessions.set j { s with phase := o.phase },
              store := o.store, completed := o.completed,
              trace := c1.trace ++ o.events },
            { c2 with
              sessions := c2.sessions.set j { s with phase := o.phase },
              store := o.store, completed := o.completed,
              trace := c2.trace ++ o.events },
            by simp only [exec, hs1, hsp],
            by simp only [exec, hs2, hstep2, hsp],
            hrv, hqa, rfl, rfl, ?_, ?_, ?_, ?_⟩
          · show observables (c1.trace ++ o.events) = observables (c2.trace ++ o.events)
            rw [observables_append, observables_append, hobs]
          · show (c1.sessions.set j _).length = (c2.sessions.set j _).length
            rw [List.length_set, List.length_set]
            exact hlen
          · intro j' hj'
            show (c1.sessions.set j _)[j']? = (c2.sessions.set j _)[j']?
            by_cases hjj : j' = j
            · subst hjj
              rw [getElem?_set_of_some _ hs1, getElem?_set_of_some _ hs2]
            · rw [List.getElem?_set_ne (Ne.symm hjj), List.getElem?_set_ne (Ne.symm hjj)]
              exact hoth j' hj'
          · intro t1 t2 ht1 ht2
            rw [List.getElem?_set_ne hij] at ht1 ht2
            exact hati t1 t2 ht1 ht2
  | timeout j =>
    by_cases hij : j = i
    · subst hij
      cases hs1 : c1.sessions[j]? with
      | none =>
        have hs2 : c2.sessions[j]? = none := by
          rw [List.getElem?_eq_none_iff, ← hlen]
          exact List.getElem?_eq_none_iff.mp hs1
        left
        exact ⟨by simp [exec, hs1], by simp [exec, hs2]⟩
      | some s1 =>
        cases hs2 : c2.sessions[j]? with
        | none =>
          have hx := List.getElem?_eq_none_iff.mp hs2
          have hy := (List.getElem?_eq_some.mp hs1).1
          omega
        | some s2 =>
          obtain ⟨hadv, haddr, hph⟩ := hati s1 s2 hs1 hs2
          obtain ⟨a1, r1, ad1, ph1⟩ := s1
          obtain ⟨a2, r2, ad2, ph2⟩ := s2
          dsimp only at hadv haddr hph
          subst hadv
          subst haddr
          subst hph
          have hto2 : sessionTimeout c2.store ⟨a1, r2, ad1, ph1⟩ =
              sessionTimeout c1.store ⟨a1, r1, ad1, ph1⟩ := by
            rw [← hst, sessionTimeout_response_indep c1.store a1 r2 r1 ad1 ph1]
          cases hto : sessionTimeout c1.store ⟨a1, r1, ad1, ph1⟩ with
          | none =>
            left
            exact ⟨by simp [exec, hs1, hto], by simp [exec, hs2, hto2, hto]⟩
          | some ph' =>
            right
            refine ⟨{ c1 with sessions := c1.sessions.set j ⟨a1, r1, ad1, ph'⟩ },
              { c2 with sessions := c2.sessions.set j ⟨a1, r2, ad1, ph'⟩ },
              by simp only [exec, hs1, hto],
              by simp only [exec, hs2, hto2, hto],
              hrv, hqa, hst, hcp, hobs, ?_, ?_, ?_⟩
            · show (c1.sessions.set j _).length = (c2.sessions.set j _).length
              rw [List.length_set, List.length_set]
              exact hlen
            · intro j' hj'
              show (c1.sessions.set j _)[j']? = (c2.sessions.set j _)[j']?
              rw [List.getElem?_set_ne (Ne.symm hj'), List.getElem?_set_ne (Ne.symm hj')]
              exact hoth j' hj'
            · intro t1 t2 ht1 ht2
              rw [getElem?_set_of_some _ hs1] at ht1
              rw [getElem?_set_of_some _ hs2] at ht2
              rw [← Option.some.inj ht1, ← Option.some.inj ht2]
              exact ⟨rfl, rfl, rfl⟩
    · have hsj : c1.sessions[j]? = c2.sessions[j]? := hoth j hij
      cases hs1 : c1.sessions[j]? with
      | none =>
        have hs2 : c2.sessions[j]? = none := by rw [← hsj, hs1]
        left
        exact ⟨by simp [exec, hs1], by simp [exec, hs2]⟩
      | some s =>
        have hs2 : c2.sessions[j]? = some s := by rw [← hsj, hs1]
        have hto2 : sessionTimeout c2.store s = sessionTimeout c1.store s := by
          rw [← hst]
        cases hto : sessionTimeout c1.store s with
        | none =>
          left
          exact ⟨by simp [exec, hs1, hto], by simp [exec, hs2, hto2, hto]⟩
        | some ph' =>
          right
          refine ⟨{ c1 with sessions := c1.sessions.set j { s with phase := ph' } },
            { c2 with sessions := c2.sessions.set j { s with phase := ph' } },
            by simp only [exec, hs1, hto],
            by simp only [exec, hs2, hto2, hto],
            hrv, hqa, hst, hcp, hobs, ?_, ?_, ?_⟩
          · show (c1.sessions.set j _).length = (c2.sessions.set j _).length
            rw [List.length_set, List.length_set]
            exact hlen
          · intro j' hj'
            show (c1.sessions.set j _)[j']? = (c2.sessions.set j _)[j']?
            by_cases hjj : j' = j
            · subst hjj
              rw [getElem?_set_of_some _ hs1, getElem?_set_of_some _ hs2]
            · rw [List.getElem?_set_ne (Ne.symm hjj), List.getElem?_set_ne (Ne.symm hjj)]
              exact hoth j' hj'
          · intro t1 t2 ht1 ht2
            rw [List.getElem?_set_ne hij] at ht1 ht2
            exact hati t1 t2 ht1 ht2

/-- C8: the handler does not verify the `AdvertiseResponse` proof value.  For any
two runs that differ only in the payload of the `AdvertiseResponse` received by
one session, under any schedule, each action is enabled in one run exactly when
it is enabled in the other, and the runs stay `Related`: identical store,
completed set, phases, and observable traces (messages sent, store updates,
barrier operations) — the handler proceeds to role resolution regardless of
whether the proof equals the original nonce. -/
theorem advertise_response_payload_noninterference {i : Nat} {c1 c2 : Config}
    (hrel : Related i c1 c2) (acts : List Act) :
    (run c1 acts = none ∧ run c2 acts = none) ∨
    (∃ d1 d2, run c1 acts = some d1 ∧ run c2 acts = some d2 ∧ Related i d1 d2) := by
  induction acts generalizing c1 c2 with
  | nil => exact Or.inr ⟨c1, c2, rfl, rfl, hrel⟩
  | cons a rest ih =>
    rcases exec_response_indep hrel a with ⟨h1, h2⟩ | ⟨d1, d2, h1, h2, hrel2⟩
    · left
      exact ⟨by simp [run, h1], by simp [run, h2]⟩
    · simp only [run, h1, h2]
      exact ih hrel2

/-- The canonical pair with session 0's challenge response replaced by a
different payload. -/
def respVariantCfg : Config :=
  { pairInitC with
    sessions := [⟨⟨1, "ka", "kb"⟩, "rx", ⟨"h1", 10⟩, Phase.start⟩,
                 ⟨⟨1, "kb", "ka"⟩, "rb", ⟨"h2", 20⟩, Phase.start⟩] }

/-- Witness for C8: the canonical run and its response-variant run are related
under the canonical schedule. -/
theorem advertise_response_payload_noninterference_witness :
    (run pairInitC canonicalSchedule = none ∧
      run respVariantCfg canonicalSchedule = none) ∨
    (∃ d1 d2, run pairInitC canonicalSchedule = some d1 ∧
      run respVariantCfg canonicalSchedule = some d2 ∧ Related 0 d1 d2) :=
  @advertise_response_payload_noninterference 0 pairInitC respVariantCfg
    ⟨rfl, rfl, rfl, rfl, rfl, rfl,
     fun j hj => by
       cases j with
       | zero => exact absurd rfl hj
       | succ n => rfl,
     fun s1 s2 h1 h2 => by
       rw [← Option.some.inj h1, ← Option.some.inj h2]
       exact ⟨rfl, rfl, rfl⟩⟩
    canonicalSchedule
